import Mathlib

/-!
Verification of the reconciliation engine of `postman_sync`.

This file gives a shallow embedding, in Lean 4, of the parts of the
repository that the specification's claims are about:

* `src/postman_sync/models.py`           (Route, HttpMethod, SyncResult, naming policy)
* `src/postman_sync/utils/validators.py` (validate_postman_collection)
* `src/postman_sync/postman/test_generator.py` (TestScriptGenerator)
* `src/postman_sync/postman/merger.py`   (CollectionMerger)

Modelling conventions, documented once here:

* Python `dict`s that the code reads with `in` / `.get` are modelled as
  structures whose fields are `Option`s (`none` = key absent).  Extra,
  never-inspected keys of an item/request are modelled by an opaque
  `extra : Nat` field, which in-place mutation preserves.
* A Postman item tree is a mutual inductive (`Item` / `Children` /
  `ItemList`): `Children.noKey` models a dict without an `"item"` key,
  `Children.withKey l` a dict whose `"item"` key holds the list `l`.
* Python `datetime.utcnow()` is abstracted as a `Nat` instant passed to
  `merge` as an explicit `now` argument; `isoformat` renders it as its
  base-10 digit string (all characters of which match the timestamp
  regex character class `[\d\-T:.]` used by the code), and
  `datetime.fromisoformat` is abstracted as a parser that succeeds
  exactly on non-empty all-digit strings.  `timedelta(days=d)` is `d`
  in the same unit.  Engine-written timestamps round-trip, and
  non-timestamp garbage fails to parse, which is what the claims use.
* Python dicts used as insertion-ordered maps (the request index, the
  folder map of `_organize_by_folder`) are modelled as assoc lists with
  first-binding-wins insertion, which preserves both the membership
  semantics and the iteration order of CPython dicts.
* The Python merger mutates the collection in place through references
  held by the index; the model is functional.  Raising an exception in
  Python leaves the caller's dict in whatever state it was mutated to,
  so the model's `merge` returns `Except (String × Collection) …` whose
  error value carries the collection as it stood when the exception was
  raised (both raise points occur before any mutation).
* String operations of Python (`in`, `split(sep)[0]`, `rstrip`,
  `lower`, `capitalize`, `replace`, `split('/')`, `split()`,
  `re.search(r'\(as of ([\d\-T:\.]+)\)', …)`) are implemented
  character-list by character-list below with the same semantics on
  the inputs the code can produce.
-/

namespace PostmanSync

/-! ## Character-list implementations of the Python string operations -/

/-- Python `s.startswith(pat)` on character lists: `pat` begins `s`. -/
def startsWithCh : List Char → List Char → Bool
  | [], _ => true
  | _ :: _, [] => false
  | p :: ps, c :: cs => p == c && startsWithCh ps cs

/-- Python `pat in s` on character lists (substring containment). -/
def containsCh : List Char → List Char → Bool
  | [], pat => startsWithCh pat []
  | c :: cs, pat => startsWithCh pat (c :: cs) || containsCh cs pat

/-- Python `pat in s` on strings. -/
def containsSub (s pat : String) : Bool :=
  containsCh s.data pat.data

/-- Python `s.split(pat)[0]` (for a non-empty `pat`): the part of `s`
before the first occurrence of `pat`, or all of `s` when `pat` does not
occur. -/
def splitFirstCh : List Char → List Char → List Char
  | s, pat =>
    if startsWithCh pat s then []
    else match s with
      | [] => []
      | c :: cs => c :: splitFirstCh cs pat

/-- Python `s.split(pat)[0]` on strings. -/
def splitFirst (s pat : String) : String :=
  ⟨splitFirstCh s.data pat.data⟩

/-- Python `s.rstrip()` (the code only ever produces ASCII whitespace). -/
def pyRstrip (s : String) : String :=
  ⟨(s.data.reverse.dropWhile Char.isWhitespace).reverse⟩

/-- Python `s.strip()`. -/
def pyStrip (s : String) : String :=
  ⟨((s.data.dropWhile Char.isWhitespace).reverse.dropWhile Char.isWhitespace).reverse⟩

/-- Python `s.lower()` (ASCII; the repository only feeds it ASCII). -/
def pyLower (s : String) : String :=
  ⟨s.data.map Char.toLower⟩

/-- Python `s.capitalize()`: first character upper-cased, rest lower-cased. -/
def pyCapitalize (s : String) : String :=
  match s.data with
  | [] => ""
  | c :: cs => ⟨c.toUpper :: cs.map Char.toLower⟩

/-- Python `s.replace(c, d)` for single characters. -/
def pyReplaceChar (s : String) (c d : Char) : String :=
  ⟨s.data.map (fun x => if x == c then d else x)⟩

/-- Worker for `replaceCh`; the fuel argument only makes the recursion
structural (a non-empty match always consumes at least one character,
so fuel `s.length` is never exhausted). -/
def replaceChAux (pat repl : List Char) : Nat → List Char → List Char
  | _, [] => []
  | 0, s => s
  | fuel + 1, c :: cs =>
    if pat ≠ [] && startsWithCh pat (c :: cs) then
      repl ++ replaceChAux pat repl fuel ((c :: cs).drop pat.length)
    else
      c :: replaceChAux pat repl fuel cs

/-- Python `s.replace(pat, repl)` on character lists: replaces every
non-overlapping occurrence, scanning left to right.  The repository
only calls it with non-empty `pat`; for `pat = []` this returns `s`
unchanged. -/
def replaceCh (pat repl s : List Char) : List Char :=
  replaceChAux pat repl s.length s

/-- Python `s.replace(pat, repl)` on strings. -/
def pyReplace (s pat repl : String) : String :=
  ⟨replaceCh pat.data repl.data s.data⟩

/-- Python `s.split(sep)` for a single separator character, keeping
empty parts (e.g. `"/a//b".split('/') = ["", "a", "", "b"]`). -/
def splitOnChar (sep : Char) : List Char → List (List Char)
  | [] => [[]]
  | c :: cs =>
    match splitOnChar sep cs with
    | [] => [[]]
    | h :: t => if c == sep then [] :: h :: t else (c :: h) :: t

/-- Joining with a separator character: inverse of `splitOnChar`. -/
def intercalCh (sep : Char) : List (List Char) → List Char
  | [] => []
  | [x] => x
  | x :: y :: t => x ++ sep :: intercalCh sep (y :: t)

/-- Python `path.split('/')` on strings. -/
def pySplitSlash (s : String) : List String :=
  (splitOnChar '/' s.data).map (fun l => ⟨l⟩)

/-- Python `'/'.join(parts)`. -/
def joinSlash (parts : List String) : String :=
  ⟨intercalCh '/' (parts.map String.data)⟩

/-- Python `' '.join(parts)`. -/
def joinSpace (parts : List String) : String :=
  ⟨intercalCh ' ' (parts.map String.data)⟩

/-- Python `s.split()` (no argument): split on whitespace runs,
dropping empty parts. -/
def pySplitWs (s : String) : List String :=
  ((splitOnChar ' ' (s.data.map (fun c => if c.isWhitespace then ' ' else c))).map
    (fun l => (⟨l⟩ : String))).filter (fun p => p ≠ "")

/-! ## The `datetime` abstraction -/

/-- One base-10 digit as a character. -/
def digitCh : Nat → Char
  | 0 => '0' | 1 => '1' | 2 => '2' | 3 => '3' | 4 => '4'
  | 5 => '5' | 6 => '6' | 7 => '7' | 8 => '8' | _ => '9'

/-- Worker for `natToRevDigits`; the fuel argument only makes the
recursion structural (`n / 10 < n` for `n ≥ 10`, so fuel `n`
suffices). -/
def natToRevDigitsAux : Nat → Nat → List Char
  | 0, n => [digitCh (n % 10)]
  | fuel + 1, n =>
    if n < 10 then [digitCh n]
    else digitCh (n % 10) :: natToRevDigitsAux fuel (n / 10)

/-- Base-10 digits of `n`, least significant first. -/
def natToRevDigits (n : Nat) : List Char :=
  natToRevDigitsAux n n

/-- Abstraction of `datetime.utcnow().isoformat()` for the abstract
instant `t`: its base-10 rendering.  Every character of it belongs to
the regex class `[\d\-T:.]` that `_remove_old_deprecated` scans for. -/
def isoformat (t : Nat) : String :=
  ⟨(natToRevDigits t).reverse⟩

/-- Numeric value of a digit character. -/
def digitVal (c : Char) : Nat := c.toNat - 48

/-- Value of a most-significant-first digit string. -/
def digitsVal (l : List Char) : Nat :=
  l.foldl (fun acc c => acc * 10 + digitVal c) 0

/-- Abstraction of `datetime.fromisoformat`: succeeds exactly on the
strings `isoformat` produces (non-empty, all digits), fails on
anything else (Python raises `ValueError`). -/
def parseTimestamp (s : String) : Option Nat :=
  if s.data ≠ [] ∧ s.data.all Char.isDigit then some (digitsVal s.data) else none

/-- Character class `[\d\-T:.]` of the deprecation-timestamp regex in
`CollectionMerger._remove_old_deprecated`. -/
def isTsChar (c : Char) : Bool :=
  c.isDigit || c == '-' || c == 'T' || c == ':' || c == '.'

/-- Character list of the literal `"(as of "` of the regex. -/
def asOfTag : List Char :=
  ['(', 'a', 's', ' ', 'o', 'f', ' ']

/-- Scan implementing `re.search(r'\(as of ([\d\-T:\.]+)\)', desc)`:
the leftmost position where the literal `"(as of "` is followed by at
least one class character and then `')'`; returns the captured group.
A maximal greedy run not followed by `')'` cannot match by shrinking
(every shorter run is still followed by a class character), so the
scan resumes at the next start position, exactly like `re.search`. -/
def findDepDateCh : List Char → Option String
  | [] => none
  | c :: rest =>
    if startsWithCh asOfTag (c :: rest) then
      let after := (c :: rest).drop 7
      let run := after.takeWhile isTsChar
      let rest2 := after.dropWhile isTsChar
      if run ≠ [] && rest2.head? == some ')' then some ⟨run⟩
      else findDepDateCh rest
    else findDepDateCh rest

/-- The regex search on strings. -/
def findDepDate (s : String) : Option String :=
  findDepDateCh s.data

/-! ## Domain model (`models.py`) -/

/-- HTTP methods supported by Fastify (`models.HttpMethod`). -/
inductive HttpMethod : Type where
  | GET | POST | PUT | PATCH | DELETE | OPTIONS | HEAD
  deriving DecidableEq, Repr

/-- The `.value` of an `HttpMethod` enum member. -/
def HttpMethod.value : HttpMethod → String
  | .GET => "GET" | .POST => "POST" | .PUT => "PUT" | .PATCH => "PATCH"
  | .DELETE => "DELETE" | .OPTIONS => "OPTIONS" | .HEAD => "HEAD"

/-- Rate limiting configuration (`models.RateLimitConfig`). -/
structure RateLimitConfig where
  max : Nat
  time_window : String
  deriving DecidableEq, Repr

/-- Metadata about route extraction (`models.RouteMetadata`).
`extracted_at` uses the same `Nat` instant abstraction as elsewhere. -/
structure RouteMetadata where
  file_path : String
  file_name : String
  line_number : Nat
  is_protected : Bool
  rate_limit : Option RateLimitConfig
  extracted_at : Nat
  deriving DecidableEq, Repr

/-- JSON schema for route validation (`models.RouteSchema`).  The body,
querystring, params and headers schemas are opaque (`Nat` stands for an
arbitrary schema object); the per-status response map is an assoc list
from status code to the truthiness of the schema dict stored there,
which is all `TestScriptGenerator` inspects. -/
structure RouteSchema where
  body : Option Nat
  querystring : Option Nat
  params : Option Nat
  headers : Option Nat
  response : Option (List (Nat × Bool))
  deriving DecidableEq, Repr

/-- A parsed Fastify route (`models.Route`). -/
structure Route where
  method : HttpMethod
  path : String
  full_path : String
  handler_name : String
  description : Option String
  schema : Option RouteSchema
  metadata : Option RouteMetadata
  deriving DecidableEq, Repr

/-- Python truthiness of an `Optional[str]`. -/
def optStrTruthy : Option String → Bool
  | none => false
  | some s => s ≠ ""

/-- The `Route.unique_id` property. -/
def Route.unique_id (r : Route) : String :=
  r.method.value ++ ":" ++ r.full_path

/-- The `Route.folder_name` property. -/
def Route.folder_name (r : Route) : String :=
  match r.metadata with
  | none => "Routes"
  | some m =>
    let name := pyReplace (pyReplace m.file_name ".ts" "") ".js" ""
    let words := pySplitWs (pyReplaceChar (pyReplaceChar name '-' ' ') '_' ' ')
    joinSpace (words.map pyCapitalize)

/-- The `Route.request_name` property. -/
def Route.request_name (r : Route) : String :=
  let path_parts := (pySplitSlash r.full_path).filter (fun p => p ≠ "" && p != "api")
  if path_parts.isEmpty then r.method.value ++ " Root"
  else
    let method_prefix_ : String :=
      match r.method with
      | .GET => "Get"
      | .POST => if path_parts.length == 1 then "Create" else "Generate"
      | .PUT => "Update"
      | .PATCH => "Update"
      | .DELETE => "Delete"
      | m => m.value
    let readable_parts := path_parts.map (fun part =>
      let part :=
        if startsWithCh [':'] part.data then "\x7b" ++ (⟨part.data.drop 1⟩ : String) ++ "\x7d"
        else part
      joinSpace ((pySplitWs (pyReplaceChar (pyReplaceChar part '-' ' ') '_' ' ')).map
        pyCapitalize))
    let name := joinSpace readable_parts
    if containsSub (pyLower name) "health" then "Health Check"
    else if containsSub (pyLower name) "verify" then
      "Verify " ++ pyStrip (pyReplace name "Verify" "")
    else method_prefix_ ++ " " ++ name

/-! ## Postman document model -/

/-- A `{listen, script}` event's script: `{exec: [lines], type: t}`. -/
structure Script where
  exec : List String
  type : String
  deriving DecidableEq, Repr

/-- One entry of an item's `event` array. -/
structure PEvent where
  listen : Option String
  script : Option Script
  deriving DecidableEq, Repr

/-- A Postman URL value: a raw string, a structured object whose
`path` key may hold a list of segments or (degenerately) a string, or
some other JSON value (`other`), for which `_extract_path` returns
`""`. -/
inductive UrlPath : Type where
  | segs (l : List String)
  | strPath (s : String)
  deriving DecidableEq, Repr

/-- A Postman URL, either the raw string form or a structured object.
Absent `raw` / `host` / `path` keys are `none`. -/
inductive Url : Type where
  | str (s : String)
  | obj (raw : Option String) (host : Option (List String)) (path : Option UrlPath)
  | other
  deriving DecidableEq, Repr

/-- The `request` object of an entry item.  `header` is opaque (the
merger writes `[]` on creation and never reads it); `extra` stands for
any other keys, preserved by in-place mutation. -/
structure Request where
  method : String
  url : Option Url
  description : Option String
  header : Option (List Nat)
  extra : Nat
  deriving DecidableEq, Repr

mutual

/-- One node of the collection's item tree: the possible keys of the
item dict.  A node with a `request` key is an entry; a node with an
`item` key is a folder (the Python code duck-types on key presence, so
a node may in principle be both). -/
inductive Item : Type where
  | mk (name : Option String) (request : Option Request)
      (event : Option (List PEvent)) (response : Option (List Nat))
      (children : Children) (extra : Nat)

/-- Presence or absence of the `"item"` key of a node. -/
inductive Children : Type where
  | noKey
  | withKey (items : ItemList)

/-- The list held by an `"item"` key. -/
inductive ItemList : Type where
  | nil
  | cons (head : Item) (tail : ItemList)

end

/-- Name field of an item (`item.get("name")`). -/
def Item.name : Item → Option String
  | .mk n _ _ _ _ _ => n

/-- Request field of an item (`item.get("request")`). -/
def Item.request : Item → Option Request
  | .mk _ r _ _ _ _ => r

/-- Event field of an item. -/
def Item.event : Item → Option (List PEvent)
  | .mk _ _ ev _ _ _ => ev

/-- Response field of an item. -/
def Item.response : Item → Option (List Nat)
  | .mk _ _ _ resp _ _ => resp

/-- Children field of an item (the `"item"` key). -/
def Item.children : Item → Children
  | .mk _ _ _ _ ch _ => ch

/-- Opaque further keys of an item. -/
def Item.extra : Item → Nat
  | .mk _ _ _ _ _ e => e

/-- Append one item at the end of an `ItemList` (Python `list.append`). -/
def ItemList.push : ItemList → Item → ItemList
  | .nil, x => .cons x .nil
  | .cons h t, x => .cons h (t.push x)

/-- Concatenation of `ItemList`s. -/
def ItemList.append : ItemList → ItemList → ItemList
  | .nil, ys => ys
  | .cons h t, ys => .cons h (t.append ys)

/-- The `info` object of a collection. -/
structure Info where
  name : Option String
  extra : Nat
  deriving DecidableEq

/-- A Postman collection document: optional `info` and `item` keys
(`none` = key missing), plus opaque other keys. -/
structure Collection where
  info : Option Info
  item : Option ItemList
  extra : Nat

/-- Result of a sync operation (`models.SyncResult`).  `synced_at` is
irrelevant to the claims and omitted. -/
structure SyncResult where
  routes_added : List Route
  routes_updated : List Route
  routes_deprecated : List String
  routes_removed : List String
  errors : List String
  deriving DecidableEq, Repr

/-- The `SyncResult.has_changes` property. -/
def SyncResult.has_changes (r : SyncResult) : Bool :=
  decide (0 < r.routes_added.length) || decide (0 < r.routes_updated.length)
    || decide (0 < r.routes_deprecated.length) || decide (0 < r.routes_removed.length)

/-! ## Test script generator (`test_generator.py`) -/

/-- The unconditional status-code test of `generate_test_script`. -/
def status_code_tests : List String :=
  ["pm.test(\"Status code is 200\", function () \x7b",
   "    pm.response.to.have.status(200);",
   "\x7d);",
   ""]

/-- Model of `TestScriptGenerator._generate_structure_tests`. -/
def generate_structure_tests : List String :=
  ["pm.test(\"Response has correct structure\", function () \x7b",
   "    var jsonData = pm.response.json();",
   "    pm.expect(jsonData).to.be.an(\"object\");",
   "\x7d);",
   ""]

/-- Model of `TestScriptGenerator._generate_post_tests`. -/
def generate_post_tests (r : Route) : List String :=
  if containsSub (pyLower r.path) "token" then
    ["pm.test(\"Response contains token\", function () \x7b",
     "    var jsonData = pm.response.json();",
     "    pm.expect(jsonData).to.have.property(\"token\");",
     "\x7d);",
     "",
     "// Save token to collection variable",
     "if (pm.response.code === 200) \x7b",
     "    var jsonData = pm.response.json();",
     "    pm.collectionVariables.set(\"jwtToken\", jsonData.token);",
     "\x7d",
     ""]
  else
    ["pm.test(\"Resource created successfully\", function () \x7b",
     "    pm.expect(pm.response.code).to.be.oneOf([200, 201]);",
     "\x7d);",
     ""]

/-- Model of `TestScriptGenerator._generate_get_tests`. -/
def generate_get_tests (r : Route) : List String :=
  if containsSub (pyLower r.path) "health" then
    ["pm.test(\"Service is healthy\", function () \x7b",
     "    var jsonData = pm.response.json();",
     "    pm.expect(jsonData.status).to.eql(\"ok\");",
     "\x7d);",
     ""]
  else []

/-- Model of `TestScriptGenerator.generate_test_script`.  The schema condition
models Python truthiness: `route.schema and route.schema.response` is
truthy when the schema is present and its response dict is present and
non-empty; `response.get(200)` is truthy when the 200 entry exists and
its stored schema dict is truthy (`Bool` in the model). -/
def generate_test_script (r : Route) : List String :=
  let schema_tests :=
    match r.schema with
    | some sch =>
      match sch.response with
      | some resp =>
        if resp.isEmpty then []
        else
          match resp.find? (fun p => p.1 == 200) with
          | some (_, true) => generate_structure_tests
          | _ => []
      | none => []
    | none => []
  let method_tests :=
    if r.method = .POST then generate_post_tests r
    else if r.method = .GET then generate_get_tests r
    else []
  status_code_tests ++ schema_tests ++ method_tests

/-- Model of `TestScriptGenerator.generate_prerequest_auth_script`. -/
def generate_prerequest_auth_script : List String :=
  ["// Auto-generated: Add JWT authorization header",
   "const token = pm.collectionVariables.get(\"jwtToken\");",
   "",
   "if (token) \x7b",
   "    pm.request.headers.add(\x7b",
   "        key: \"Authorization\",",
   "        value: `Bearer $\x7btoken\x7d`",
   "    \x7d);",
   "\x7d else \x7b",
   "    console.warn(\"JWT token not found. Generate token first.\");",
   "\x7d"]

/-! ## Validator (`validators.py`) -/

/-- Model of `validate_postman_collection`: the checks, in source order, that
the model can express (`info` must be a dict and `item` a list hold by
construction of `Collection`).  The error strings are the source's. -/
def validate_postman_collection (c : Collection) : Except String Unit :=
  match c.info with
  | none => .error "Collection missing \x27info\x27 field"
  | some info =>
    match c.item with
    | none => .error "Collection missing \x27item\x27 field"
    | some _ =>
      match info.name with
      | none => .error "Collection info missing \x27name\x27 field"
      | some _ => .ok ()

/-! ## The merger (`merger.py`) -/

/-- Model of `CollectionMerger._extract_path`.  The argument is the value of
`item["request"].get("url", {})`: `none` models the absent key, whose
`{}` default is a dict with no `path` key, giving `"/" + "".join([])`.
A structured url whose `path` key is absent uses the `[]` default the
same way; a `path` holding a string `s` returns `str(s) = s`; a url
that is neither a string nor a dict returns `""`. -/
def extract_path : Option Url → String
  | some (.str s) => s
  | some (.obj _ _ p) =>
    match p with
    | some (.segs l) => "/" ++ joinSlash l
    | some (.strPath s) => s
    | none => "/" ++ joinSlash []
  | none => "/" ++ joinSlash []
  | some .other => ""

/-- The `f"{method}:{path}"` key that `_index_requests` (and the
removal pass) computes for an entry's request. -/
def uidOfRequest (req : Request) : String :=
  req.method ++ ":" ++ extract_path req.url

/-- Model of `CollectionMerger._build_url`. -/
def build_url (path : String) : Url :=
  .obj (some ("\x7b\x7bbaseUrl\x7d\x7d" ++ path))
    (some ["\x7b\x7bbaseUrl\x7d\x7d"])
    (some (.segs ((pySplitSlash path).filter (fun p => p ≠ ""))))

/-- The `\n\n_Last synced: {iso}_` note `_update_request` appends. -/
def syncNote (now : Nat) : String :=
  "\n\n_Last synced: " ++ isoformat now ++ "_"

/-- The `**DEPRECATED** (as of {iso})\n\n` marker `_mark_deprecated`
puts in front of a description. -/
def depMarkDesc (now : Nat) (desc : String) : String :=
  "**DEPRECATED** (as of " ++ isoformat now ++ ")\n\n" ++ desc

/-- Python truthiness of `route.metadata and route.metadata.is_protected`. -/
def route_is_protected (r : Route) : Bool :=
  match r.metadata with
  | some m => m.is_protected
  | none => false

/-- The prerequest event `_ensure_auth_prerequest` appends. -/
def authPrerequestEvent : PEvent :=
  ⟨some "prerequest", some ⟨generate_prerequest_auth_script, "text/javascript"⟩⟩

/-- Model of `CollectionMerger._ensure_auth_prerequest`: create the `event` key
if absent, then append the auth prerequest script unless some event
already listens on `prerequest`. -/
def ensure_auth_prerequest : Item → Item
  | .mk n r ev resp ch ex =>
    if (ev.getD []).any (fun e => e.listen == some "prerequest") then
      .mk n r (some (ev.getD [])) resp ch ex
    else .mk n r (some (ev.getD [] ++ [authPrerequestEvent])) resp ch ex

/-- Model of `CollectionMerger._update_request`.  When the item has no
`request` key, Python mutates the fresh `{}` default, which is
discarded; the trailing protected-route step still runs on the item
itself. -/
def update_request (it : Item) (r : Route) (now : Nat) : Item :=
  let it1 :=
    match it with
    | .mk n (some req) ev resp ch ex =>
      let current_desc := req.description.getD ""
      let base_desc :=
        if containsSub current_desc "_Last synced:" then
          pyRstrip (splitFirst current_desc "_Last synced:")
        else current_desc
      let base_desc :=
        if base_desc == "" && optStrTruthy r.description then r.description.getD ""
        else base_desc
      .mk n (some { req with
        description := some (base_desc ++ syncNote now),
        url := some (build_url r.full_path),
        method := r.method.value }) ev resp ch ex
    | other => other
  if route_is_protected r then ensure_auth_prerequest it1 else it1

/-- Description an item's request carries
(`item.get("request", {}).get("description", "")`). -/
def item_desc (it : Item) : String :=
  match it.request with
  | some req => req.description.getD ""
  | none => ""

/-- The per-item effect of the loop body of
`CollectionMerger._mark_deprecated`: prepend a freshly timestamped
marker unless one is already present (an item without a `request` key
has its mutation discarded with the `{}` default). -/
def mark_deprecated_item (now : Nat) : Item → Item
  | .mk n (some req) ev resp ch ex =>
    if containsSub (req.description.getD "") "**DEPRECATED**" then
      .mk n (some req) ev resp ch ex
    else
      .mk n (some { req with
        description := some (depMarkDesc now (req.description.getD "")) }) ev resp ch ex
  | it => it

/-- The request item `CollectionMerger._add_request` constructs for a
route (name, empty header, generated url/description, generated test
event if any, response `[]`, then the auth hook when protected). -/
def build_request_item (r : Route) (now : Nat) : Item :=
  let test_script := generate_test_script r
  let events : List PEvent :=
    if test_script.isEmpty then []
    else [⟨some "test", some ⟨test_script, "text/javascript"⟩⟩]
  let base : Item := .mk (some r.request_name)
    (some { method := r.method.value,
            url := some (build_url r.full_path),
            description := some (if optStrTruthy r.description then r.description.getD ""
              else r.method.value ++ " " ++ r.full_path ++ syncNote now),
            header := some [],
            extra := 0 })
    (some events) (some []) .noKey 0
  if route_is_protected r then ensure_auth_prerequest base else base

/-- Append a new child to an item's `item` list (only called on items
whose `item` key is present). -/
def Item.pushChild : Item → Item → Item
  | .mk n r ev resp (.withKey l) ex, x => .mk n r ev resp (.withKey (l.push x)) ex
  | it, _ => it

/-- The folder search of `_add_request`: append the request to the
first top-level item whose `name` equals the folder name and whose
`item` key is present; `none` when no such folder exists. -/
def append_to_folder (l : ItemList) (fname : String) (reqItem : Item) : Option ItemList :=
  match l with
  | .nil => none
  | .cons it rest =>
    if it.name == some fname && (match it.children with | .withKey _ => true | .noKey => false) then
      some (.cons (it.pushChild reqItem) rest)
    else
      match append_to_folder rest fname reqItem with
      | some rest2 => some (.cons it rest2)
      | none => none

/-- Model of `CollectionMerger._add_request`: find (or create at the end) the
target folder and append the new request item to it. -/
def add_request (items : ItemList) (r : Route) (now : Nat) : ItemList :=
  let reqItem := build_request_item r now
  match append_to_folder items r.folder_name reqItem with
  | some items2 => items2
  | none =>
    items.push (.mk (some r.folder_name) none none none (.withKey (.cons reqItem .nil)) 0)

/-- A new empty folder as `_ensure_folders` creates it. -/
def empty_folder (n : String) : Item :=
  .mk (some n) none none none (.withKey .nil) 0

/-- The top-level folder-name collection of `_ensure_folders`
(`{item["name"]: item for item in collection["item"] if "item" in item}`):
fails like Python's `KeyError` when a top-level item has an `item` key
but no `name` key; the error string is `str(KeyError("name"))`. -/
def collect_top_folder_names : ItemList → Except String (List String)
  | .nil => .ok []
  | .cons it rest =>
    match it.children with
    | .withKey _ =>
      match it.name with
      | some n => (collect_top_folder_names rest).map (fun ns => n :: ns)
      | none => .error "\x27name\x27"
    | .noKey => collect_top_folder_names rest

/-- Model of `CollectionMerger._ensure_folders`: append, in order, an empty
folder for every requested name not already present at top level. -/
def ensure_folders (items : ItemList) (folder_names : List String) : Except String ItemList :=
  match collect_top_folder_names items with
  | .error e => .error e
  | .ok existing =>
    .ok ((folder_names.filter (fun n => !existing.contains n)).foldl
      (fun acc n => acc.push (empty_folder n)) items)

/-- Insert-if-absent into the assoc-list model of the index dict
(`if unique_id not in index: index[unique_id] = item`). -/
def indexAccAdd (acc : List (String × Item)) (uid : String) (it : Item) :
    List (String × Item) :=
  if (acc.find? (fun p => p.1 == uid)).isSome then acc else acc ++ [(uid, it)]

mutual

/-- Model of `CollectionMerger._index_requests`, item step: record the entry
under its `f"{method}:{path}"` key if the key is new, then recurse
into the `item` key if present. -/
def indexItemsI : Item → List (String × Item) → List (String × Item)
  | .mk n r ev resp ch ex, acc =>
    let acc1 :=
      match r with
      | some req => indexAccAdd acc (uidOfRequest req) (.mk n r ev resp ch ex)
      | none => acc
    indexItemsC ch acc1

/-- Recursion of `_index_requests` into an `item` key. -/
def indexItemsC : Children → List (String × Item) → List (String × Item)
  | .noKey, acc => acc
  | .withKey l, acc => indexItemsL l acc

/-- Recursion of `_index_requests` over a list of items. -/
def indexItemsL : ItemList → List (String × Item) → List (String × Item)
  | .nil, acc => acc
  | .cons it rest, acc => indexItemsL rest (indexItemsI it acc)

end

/-- Model of `CollectionMerger._index_requests`: the insertion-ordered map from
unique id to the first matching entry, as an assoc list. -/
def index_requests (items : ItemList) : List (String × Item) :=
  indexItemsL items []

mutual

/-- Fused update/deprecation traversal, item step.  Python mutates
entries in place through the references stored in the index; this
functional rendering applies, during one depth-first traversal, the
per-key effect `f` to exactly the first entry found for each key (the
entry the index binds that key to), threading the set of already-seen
keys exactly as the index construction does.  The effects actually
passed for `f` (`route_effect`) never touch an item's `name`,
`children` or `response`, so reattaching the recursively transformed
original children is the in-place behaviour. -/
def transformI (f : String → Item → Item) : Item → List String → Item × List String
  | .mk n r ev resp ch ex, seen =>
    let p :=
      match r with
      | some req =>
        let uid := uidOfRequest req
        if seen.contains uid then (Item.mk n r ev resp ch ex, seen)
        else (f uid (Item.mk n r ev resp ch ex), uid :: seen)
      | none => (Item.mk n r ev resp ch ex, seen)
    let q := transformC f ch p.2
    (match p.1 with
     | .mk n1 r1 ev1 resp1 _ ex1 => Item.mk n1 r1 ev1 resp1 q.1 ex1, q.2)

/-- Fused traversal through an `item` key. -/
def transformC (f : String → Item → Item) : Children → List String → Children × List String
  | .noKey, seen => (.noKey, seen)
  | .withKey l, seen =>
    let q := transformL f l seen
    (.withKey q.1, q.2)

/-- Fused traversal over a list of items. -/
def transformL (f : String → Item → Item) : ItemList → List String → ItemList × List String
  | .nil, seen => (.nil, seen)
  | .cons it rest, seen =>
    let p := transformI f it seen
    let q := transformL f rest p.2
    (.cons p.1 q.1, q.2)

end

/-- The per-first-occurrence effect the merge loop plus the
deprecation pass apply to the entry indexed under `uid`: routes whose
id is in the current route set update it in route order
(`_update_request`); an indexed entry whose id is absent from the
route set gets the deprecation marker (`_mark_deprecated`).  The two
phases touch disjoint entries, so their fusion into one traversal is
the Python execution order. -/
def route_effect (routes : List Route) (now : Nat) (uid : String) (it : Item) : Item :=
  if (routes.map Route.unique_id).contains uid then
    (routes.filter (fun r => r.unique_id == uid)).foldl (fun acc r => update_request acc r now) it
  else mark_deprecated_item now it

/-- The removal test of `_remove_old_deprecated` for one item: the id
to record when the item is an entry whose description carries the
deprecation marker with a parseable timestamp older than the cutoff;
`none` (keep) otherwise, including the logged `ValueError` case. -/
def remove_check (cutoff : Nat) (it : Item) : Option String :=
  match it.request with
  | some req =>
    let desc := req.description.getD ""
    if containsSub desc "**DEPRECATED**" then
      match findDepDate desc with
      | some ts =>
        match parseTimestamp ts with
        | some dep_date => if dep_date < cutoff then some (uidOfRequest req) else none
        | none => none
      | none => none
    else none
  | none => none

mutual

/-- Model of `process_items` of `_remove_old_deprecated`: rebuild the list,
dropping expired entries (recording their ids, and skipping their
whole subtree, as `continue` does) and recursing into kept items. -/
def removeL (cutoff : Nat) : ItemList → ItemList × List String
  | .nil => (.nil, [])
  | .cons it rest =>
    match remove_check cutoff it with
    | some uid =>
      let q := removeL cutoff rest
      (q.1, uid :: q.2)
    | none =>
      let p := removeI cutoff it
      let q := removeL cutoff rest
      (.cons p.1 q.1, p.2 ++ q.2)

/-- Recursion of the removal pass into a kept item's `item` key. -/
def removeI (cutoff : Nat) : Item → Item × List String
  | .mk n r ev resp ch ex =>
    match ch with
    | .noKey => (.mk n r ev resp .noKey ex, [])
    | .withKey l =>
      let q := removeL cutoff l
      (.mk n r ev resp (.withKey q.1) ex, q.2)

end

/-- Model of `CollectionMerger._remove_old_deprecated` with its cutoff
`utcnow() - timedelta(days=deprecation_days)`. -/
def remove_old_deprecated (deprecation_days now : Nat) (items : ItemList) :
    ItemList × List String :=
  removeL (now - deprecation_days) items

/-- First-occurrence deduplication of a list of names: the key order
of the dict `_organize_by_folder` builds. -/
def keepFirstAux : List String → List String → List String
  | [], _ => []
  | s :: r, seen =>
    if seen.contains s then keepFirstAux r seen else s :: keepFirstAux r (s :: seen)

/-- Insertion-ordered key set of `_organize_by_folder`'s dict. -/
def keepFirst (l : List String) : List String :=
  keepFirstAux l []

/-- Model of `CollectionMerger.merge`, with the two `datetime.utcnow()` reads
abstracted into the explicit instant `now` and the retention window
`deprecation_days` taken as a parameter (the constructor default is
30).  The error value carries the collection as it stood at the raise
point; both raise points (validation, the folder-name `KeyError`)
occur before any mutation. -/
def merge (deprecation_days now : Nat) (collection : Collection) (routes : List Route) :
    Except (String × Collection) (Collection × SyncResult) :=
  match validate_postman_collection collection with
  | .error e => .error ("Failed to merge collection: " ++ e, collection)
  | .ok _ =>
    let items0 := collection.item.getD .nil
    let existing := index_requests items0
    let inIndex := fun (r : Route) => (existing.find? (fun p => p.1 == r.unique_id)).isSome
    let new_routes := routes.filter (fun r => !inIndex r)
    let folder_names := keepFirst (new_routes.map Route.folder_name)
    match ensure_folders items0 folder_names with
    | .error e => .error ("Failed to merge collection: " ++ e, collection)
    | .ok items1 =>
      let items2 := (transformL (route_effect routes now) items1 []).1
      let items3 := new_routes.foldl (fun acc r => add_request acc r now) items2
      let route_ids := routes.map Route.unique_id
      let deprecated := existing.filterMap (fun p =>
        if !route_ids.contains p.1 && !containsSub (item_desc p.2) "**DEPRECATED**" then some p.1
        else none)
      let q := remove_old_deprecated deprecation_days now items3
      .ok ({ collection with item := some q.1 },
        { routes_added := new_routes,
          routes_updated := routes.filter inIndex,
          routes_deprecated := deprecated,
          routes_removed := q.2,
          errors := [] })

/-! ## Observation functions used to state the claims

The functions below are not part of the Python source; they are the
vocabulary in which the theorems talk about documents: the depth-first
sequence of entries, the view of an entry (its data minus its
subtree), well-formedness predicates, and the reference behaviour of
first-binding-wins dictionaries. -/

/-- View of an item: its own data with the subtree stripped (the
`name`, `request`, `event`, `response` and opaque keys). -/
def viewOf : Item → Item
  | .mk n r ev resp _ ex => .mk n r ev resp .noKey ex

/-- Unique id of an item, when it is an entry. -/
def itemUid (it : Item) : Option String :=
  it.request.map uidOfRequest

mutual

/-- Depth-first sequence of `(unique id, entry item)` occurrences of
one item and its subtree, in the order `_index_requests` discovers
them. -/
def entriesI : Item → List (String × Item)
  | .mk n r ev resp ch ex =>
    (match r with
     | some req => [(uidOfRequest req, .mk n r ev resp ch ex)]
     | none => []) ++ entriesC ch

/-- Depth-first entry occurrences below an `item` key. -/
def entriesC : Children → List (String × Item)
  | .noKey => []
  | .withKey l => entriesL l

/-- Depth-first entry occurrences of an item list. -/
def entriesL : ItemList → List (String × Item)
  | .nil => []
  | .cons it rest => entriesI it ++ entriesL rest

end

/-- Pair an entry occurrence with its view. -/
def pairView (p : String × Item) : String × Item :=
  (p.1, viewOf p.2)

/-- Depth-first `(unique id, view)` sequence of an item list. -/
def entryViews (l : ItemList) : List (String × Item) :=
  (entriesL l).map pairView

/-- Number of entry occurrences carrying a given unique id. -/
def countKey (k : String) (l : ItemList) : Nat :=
  (entriesL l).countP (fun p => p.1 == k)

/-- Reference behaviour of the index construction at the level of the
flat entry-occurrence sequence: fold the insert-if-absent step over
the `(key, entry)` bindings in discovery order. -/
def specIndex : List (String × Item) → List (String × Item) → List (String × Item)
  | [], acc => acc
  | (k, it) :: rest, acc => specIndex rest (indexAccAdd acc k it)

/-- Reference behaviour of the fused update/deprecation traversal at
the level of the `(unique id, view)` sequence: the first occurrence of
each key not yet seen is replaced by its transform, every other
occurrence is kept. -/
def tviews (g : String → Item → Item) :
    List (String × Item) → List String → List (String × Item) × List String
  | [], seen => ([], seen)
  | (k, v) :: rest, seen =>
    if seen.contains k then
      let q := tviews g rest seen
      ((k, v) :: q.1, q.2)
    else
      let q := tviews g rest (k :: seen)
      ((k, g k v) :: q.1, q.2)

mutual

/-- Separation predicate on an item: no node is simultaneously an
entry (has a `request` key) and a folder (has an `item` key).  This is
exactly the two-node-kind shape (Group / Entry) of the specification's
document model. -/
def sepItem : Item → Bool
  | .mk _ r _ _ ch _ =>
    (match r, ch with
     | some _, .withKey _ => false
     | _, _ => true) && sepChildren ch

/-- Separation below an `item` key. -/
def sepChildren : Children → Bool
  | .noKey => true
  | .withKey l => sepList l

/-- Separation of every node of an item list. -/
def sepList : ItemList → Bool
  | .nil => true
  | .cons it rest => sepItem it && sepList rest

end

/-- Every top-level item that has an `item` key also has a `name` key;
this is exactly what `_ensure_folders`'s dict comprehension needs in
order not to raise `KeyError`. -/
def topNamedB : ItemList → Bool
  | .nil => true
  | .cons it rest =>
    (match it.children with
     | .withKey _ => it.name.isSome
     | .noKey => true) && topNamedB rest

/-- There is a top-level folder (item with an `item` key) named `n`. -/
def topHasFolder (l : ItemList) (n : String) : Bool :=
  match l with
  | .nil => false
  | .cons it rest =>
    (it.name == some n && (match it.children with | .withKey _ => true | .noKey => false))
      || topHasFolder rest n

/-- Normalised path: starts with `'/'` and splitting on `'/'` yields
no empty segment after the leading one (no trailing slash, no double
slash).  This is the hypothesis of the URL round-trip claim. -/
def normalizedPath (p : String) : Bool :=
  startsWithCh ['/'] p.data && ((pySplitSlash p).tail.all (fun s => s ≠ ""))

/-- The text the engine would embed for a route contains no
deprecation marker: neither its description nor its full path carries
the literal `**DEPRECATED**`. -/
def routeCleanText (r : Route) : Bool :=
  !containsSub (r.description.getD "") "**DEPRECATED**"
    && !containsSub r.full_path "**DEPRECATED**"

/-- No entry of the list carries a deprecation marker in its
description. -/
def entriesUnmarked (l : ItemList) : Bool :=
  (entriesL l).all (fun p => !containsSub (item_desc p.2) "**DEPRECATED**")

/-- Collection a merge call left behind: the updated document on
success, the untouched input on failure. -/
def mergedColl : Except (String × Collection) (Collection × SyncResult) → Collection
  | .ok p => p.1
  | .error p => p.2

/-- Sync result of a merge call (an empty result on failure). -/
def mergedResult : Except (String × Collection) (Collection × SyncResult) → SyncResult
  | .ok p => p.2
  | .error _ => ⟨[], [], [], [], []⟩

/-- Item list of a collection (`collection.get("item", [])`). -/
def collItems (c : Collection) : ItemList :=
  c.item.getD .nil

mutual

/-- Decidable equality of items, by mutual recursion. -/
def decEqItem : (a b : Item) → Decidable (a = b)
  | .mk n1 r1 e1 p1 c1 x1, .mk n2 r2 e2 p2 c2 x2 =>
    if h1 : n1 = n2 then
      if h2 : r1 = r2 then
        if h3 : e1 = e2 then
          if h4 : p1 = p2 then
            match decEqChildren c1 c2 with
            | isTrue h5 =>
              if h6 : x1 = x2 then
                isTrue (by rw [h1, h2, h3, h4, h5, h6])
              else isFalse (by intro h; injection h; contradiction)
            | isFalse h5 => isFalse (by intro h; injection h; contradiction)
          else isFalse (by intro h; injection h; contradiction)
        else isFalse (by intro h; injection h; contradiction)
      else isFalse (by intro h; injection h; contradiction)
    else isFalse (by intro h; injection h; contradiction)

/-- Decidable equality of children, by mutual recursion. -/
def decEqChildren : (a b : Children) → Decidable (a = b)
  | .noKey, .noKey => isTrue rfl
  | .noKey, .withKey _ => isFalse (by intro h; exact Children.noConfusion h)
  | .withKey _, .noKey => isFalse (by intro h; exact Children.noConfusion h)
  | .withKey l1, .withKey l2 =>
    match decEqItemList l1 l2 with
    | isTrue h => isTrue (by rw [h])
    | isFalse h => isFalse (by intro hh; injection hh; contradiction)

/-- Decidable equality of item lists, by mutual recursion. -/
def decEqItemList : (a b : ItemList) → Decidable (a = b)
  | .nil, .nil => isTrue rfl
  | .nil, .cons _ _ => isFalse (by intro h; exact ItemList.noConfusion h)
  | .cons _ _, .nil => isFalse (by intro h; exact ItemList.noConfusion h)
  | .cons h1 t1, .cons h2 t2 =>
    match decEqItem h1 h2 with
    | isTrue hh =>
      match decEqItemList t1 t2 with
      | isTrue ht => isTrue (by rw [hh, ht])
      | isFalse ht => isFalse (by intro h; injection h; contradiction)
    | isFalse hh => isFalse (by intro h; injection h; contradiction)

end

instance : DecidableEq Item := decEqItem

instance : DecidableEq Children := decEqChildren

instance : DecidableEq ItemList := decEqItemList

/-- Decidable equality of whole collections. -/
instance : DecidableEq Collection
  | .mk i1 l1 e1, .mk i2 l2 e2 =>
    if h1 : i1 = i2 then
      if h2 : l1 = l2 then
        if h3 : e1 = e2 then isTrue (by rw [h1, h2, h3])
        else isFalse (by intro h; injection h; contradiction)
      else isFalse (by intro h; injection h; contradiction)
    else isFalse (by intro h; injection h; contradiction)

/-! ## Concrete documents and routes used by the counterexamples and
witnesses -/

/-- The route of the insertion scenario: POST `/api/auth/token` from
`auth.ts`, not protected. -/
def authRoute : Route :=
  ⟨.POST, "/auth/token", "/api/auth/token", "generateToken", none, none,
    some ⟨"routes/auth.ts", "auth.ts", 10, false, none, 0⟩⟩

/-- An empty but well-formed collection (`info.name` present,
`item: []`). -/
def emptyDoc : Collection :=
  ⟨some ⟨some "API", 0⟩, some .nil, 0⟩

/-- An entry item `DELETE /api/users/1` whose description carries a
deprecation marker stamped at instant 5. -/
def markedEntryItem : Item :=
  .mk (some "Delete User")
    (some ⟨"DELETE", some (.str "/api/users/1"),
      some "**DEPRECATED** (as of 5)\n\nOld text", some [], 0⟩)
    none (some []) .noKey 0

/-- A collection containing only `markedEntryItem`. -/
def markedDoc : Collection :=
  ⟨some ⟨some "API", 0⟩, some (.cons markedEntryItem .nil), 0⟩

/-- An entry whose deprecation marker carries an unparsable timestamp
(the regex finds no `(as of <class chars>)` group). -/
def badStampItem : Item :=
  .mk (some "Old One")
    (some ⟨"GET", some (.str "/api/old"),
      some "**DEPRECATED** (as of unknown)\n\nLegacy", some [], 0⟩)
    none (some []) .noKey 0

/-- A collection containing only `badStampItem`. -/
def badStampDoc : Collection :=
  ⟨some ⟨some "API", 0⟩, some (.cons badStampItem .nil), 0⟩

/-- A collection lacking the `info` key. -/
def noInfoDoc : Collection :=
  ⟨none, some .nil, 0⟩

/-- First merge of the idempotence counterexample: the empty document
and the one-route list, at instant 100 with the default 30-day
retention. -/
def c1FirstMerge : Except (String × Collection) (Collection × SyncResult) :=
  merge 30 100 emptyDoc [authRoute]

/-- Second merge of the idempotence counterexample: same routes, same
instant, applied to the first merge's document. -/
def c1SecondMerge : Except (String × Collection) (Collection × SyncResult) :=
  merge 30 100 (mergedColl c1FirstMerge) [authRoute]

/-! ## Lemmas about the string operations -/

theorem startsWithCh_iff (p s : List Char) :
    startsWithCh p s = true ↔ ∃ t, s = p ++ t := by
  induction p generalizing s with
  | nil => simp [startsWithCh]
  | cons x xs ih =>
    cases s with
    | nil => simp [startsWithCh]
    | cons c cs =>
      simp only [startsWithCh, Bool.and_eq_true, beq_iff_eq, ih, List.cons_append]
      constructor
      · rintro ⟨rfl, t, rfl⟩; exact ⟨t, rfl⟩
      · rintro ⟨t, h⟩
        injection h with h1 h2
        exact ⟨h1.symm, t, h2⟩

theorem startsWithCh_self_append (p t : List Char) :
    startsWithCh p (p ++ t) = true :=
  (startsWithCh_iff p (p ++ t)).mpr ⟨t, rfl⟩

theorem containsCh_iff (s pat : List Char) :
    containsCh s pat = true ↔ ∃ u v, s = u ++ pat ++ v := by
  induction s with
  | nil =>
    simp only [containsCh, startsWithCh_iff]
    constructor
    · rintro ⟨t, h⟩
      exact ⟨[], t, by simpa using h⟩
    · rintro ⟨u, v, h⟩
      refine ⟨v, ?_⟩
      have hu : u = [] := by
        cases u with
        | nil => rfl
        | cons a as => simp at h
      subst hu; simpa using h
  | cons c cs ih =>
    simp only [containsCh, Bool.or_eq_true, startsWithCh_iff, ih]
    constructor
    · rintro (⟨t, h⟩ | ⟨u, v, h⟩)
      · exact ⟨[], t, by simpa using h⟩
      · exact ⟨c :: u, v, by simp [h]⟩
    · rintro ⟨u, v, h⟩
      cases u with
      | nil => exact Or.inl ⟨v, by simpa using h⟩
      | cons a as =>
        injection h with h1 h2
        exact Or.inr ⟨as, v, h2⟩

theorem containsCh_append_left {a pat : List Char} (b : List Char)
    (h : containsCh a pat = true) : containsCh (a ++ b) pat = true := by
  rcases (containsCh_iff a pat).mp h with ⟨u, v, rfl⟩
  exact (containsCh_iff _ pat).mpr ⟨u, v ++ b, by simp⟩

theorem containsCh_append_right {b pat : List Char} (a : List Char)
    (h : containsCh b pat = true) : containsCh (a ++ b) pat = true := by
  rcases (containsCh_iff b pat).mp h with ⟨u, v, rfl⟩
  exact (containsCh_iff _ pat).mpr ⟨a ++ u, v, by simp⟩

theorem startsWithCh_append_split : ∀ (pat x b : List Char),
    startsWithCh pat (x ++ b) = true →
    (∃ m2, pat = x ++ m2 ∧ startsWithCh m2 b = true) ∨ startsWithCh pat x = true := by
  intro pat
  induction pat with
  | nil => intro x b _; cases x with
    | nil => exact Or.inl ⟨[], rfl, rfl⟩
    | cons c cs => exact Or.inr rfl
  | cons p ps ih =>
    intro x b h
    cases x with
    | nil => exact Or.inl ⟨p :: ps, rfl, h⟩
    | cons c cs =>
      simp only [List.cons_append, startsWithCh, Bool.and_eq_true, beq_iff_eq] at h
      rcases ih cs b h.2 with ⟨m2, hm, hsw⟩ | hsw
      · exact Or.inl ⟨m2, by simp [h.1, hm], hsw⟩
      · exact Or.inr (by simp [startsWithCh, h.1, hsw])

theorem containsCh_append_cases : ∀ (a b pat : List Char),
    containsCh (a ++ b) pat = true →
    containsCh a pat = true ∨ containsCh b pat = true ∨
      ∃ m1 m2, pat = m1 ++ m2 ∧ m1 ≠ [] ∧ m2 ≠ [] ∧
        (∃ u, a = u ++ m1) ∧ (∃ v, b = m2 ++ v) := by
  intro a
  induction a with
  | nil => intro b pat h; exact Or.inr (Or.inl (by simpa using h))
  | cons c cs ih =>
    intro b pat h
    simp only [List.cons_append, containsCh, Bool.or_eq_true] at h
    rcases h with h | h
    · rcases startsWithCh_append_split pat (c :: cs) b h with ⟨m2, hm, hsw⟩ | hsw
      · by_cases hm2 : m2 = []
        · subst hm2
          exact Or.inl ((containsCh_iff _ _).mpr ⟨[], [], by simp [hm]⟩)
        · exact Or.inr (Or.inr ⟨c :: cs, m2, hm, by simp, hm2, ⟨[], rfl⟩,
            (startsWithCh_iff _ _).mp hsw⟩)
      · rcases (startsWithCh_iff _ _).mp hsw with ⟨t, ht⟩
        exact Or.inl ((containsCh_iff _ _).mpr ⟨[], t, by simpa using ht⟩)
    · rcases ih b pat h with h1 | h1 | ⟨m1, m2, hp, hm1, hm2, ⟨u, hu⟩, hv⟩
      · exact Or.inl (by
          have := containsCh_append_right (b := cs) [c] h1
          simpa using this)
      · exact Or.inr (Or.inl h1)
      · exact Or.inr (Or.inr ⟨m1, m2, hp, hm1, hm2, ⟨c :: u, by simp [hu]⟩, hv⟩)

theorem getLast?_cons_ne_none : ∀ (x : Char) (xs : List Char), (x :: xs).getLast? ≠ none := by
  intro x xs
  induction xs generalizing x with
  | nil => simp [List.getLast?]
  | cons y ys ih => rw [List.getLast?_cons_cons]; exact ih y

theorem getLast?_mem_own : ∀ (l : List Char) (c : Char), l.getLast? = some c → c ∈ l := by
  intro l
  induction l with
  | nil => intro c h; simp at h
  | cons x xs ih =>
    intro c h
    cases xs with
    | nil => simp_all [List.getLast?]
    | cons y ys =>
      rw [List.getLast?_cons_cons] at h
      exact List.mem_cons_of_mem x (ih c h)

theorem containsCh_append_eq_false_of_head {a b pat : List Char}
    (ha : containsCh a pat = false) (hb : containsCh b pat = false)
    (hhead : ∀ c, b.head? = some c → c ∉ pat) :
    containsCh (a ++ b) pat = false := by
  by_contra h
  have h' : containsCh (a ++ b) pat = true := by
    cases hab : containsCh (a ++ b) pat
    · exact absurd hab h
    · rfl
  rcases containsCh_append_cases a b pat h' with h1 | h1 | ⟨m1, m2, hp, hm1, hm2, _, ⟨v, hv⟩⟩
  · rw [ha] at h1; cases h1
  · rw [hb] at h1; cases h1
  · cases m2 with
    | nil => exact hm2 rfl
    | cons d ds =>
      have : b.head? = some d := by rw [hv]; rfl
      exact hhead d this (by rw [hp]; exact List.mem_append_right m1 (List.mem_cons_self d ds))

theorem containsCh_append_eq_false_of_last {a b pat : List Char}
    (ha : containsCh a pat = false) (hb : containsCh b pat = false)
    (hlast : ∀ c, a.getLast? = some c → c ∉ pat) :
    containsCh (a ++ b) pat = false := by
  by_contra h
  have h' : containsCh (a ++ b) pat = true := by
    cases hab : containsCh (a ++ b) pat
    · exact absurd hab h
    · rfl
  rcases containsCh_append_cases a b pat h' with h1 | h1 | ⟨m1, m2, hp, hm1, hm2, ⟨u, hu⟩, _⟩
  · rw [ha] at h1; cases h1
  · rw [hb] at h1; cases h1
  · rcases List.exists_cons_of_ne_nil hm1 with ⟨x, xs, hx⟩
    have hne : m1 ≠ [] := hm1
    have hlast1 : a.getLast? = m1.getLast? := by
      rw [hu]; exact List.getLast?_append_of_ne_nil u hne
    rcases hm : m1.getLast? with _ | c
    · rw [hx] at hm; exact getLast?_cons_ne_none x xs hm
    · have hmem : c ∈ m1 := getLast?_mem_own m1 c hm
      exact hlast c (by rw [hlast1, hm]) (by rw [hp]; exact List.mem_append_left m2 hmem)

theorem splitFirstCh_is_start (s pat : List Char) :
    ∃ t, splitFirstCh s pat ++ t = s := by
  induction s with
  | nil =>
    by_cases h : startsWithCh pat [] = true
    · exact ⟨[], by simp [splitFirstCh, h]⟩
    · exact ⟨[], by simp [splitFirstCh, h]⟩
  | cons c cs ih =>
    by_cases h : startsWithCh pat (c :: cs) = true
    · exact ⟨c :: cs, by simp [splitFirstCh, h]⟩
    · rcases ih with ⟨t, ht⟩
      exact ⟨t, by simp [splitFirstCh, h, ht]⟩

theorem rstrip_is_start (s : String) :
    ∃ t, (pyRstrip s).data ++ t = s.data := by
  refine ⟨(s.data.reverse.takeWhile Char.isWhitespace).reverse, ?_⟩
  simp only [pyRstrip]
  rw [← List.reverse_append, List.takeWhile_append_dropWhile, List.reverse_reverse]

theorem containsCh_false_of_start {x s pat : List Char}
    (h : ∃ t, x ++ t = s) (hs : containsCh s pat = false) :
    containsCh x pat = false := by
  rcases h with ⟨t, rfl⟩
  by_contra hx
  have hx' : containsCh x pat = true := by
    cases hh : containsCh x pat
    · exact absurd hh hx
    · rfl
  rw [containsCh_append_left t hx'] at hs
  cases hs

/-! ## Lemmas about the timestamp abstraction -/

theorem strEta (s : String) : (⟨s.data⟩ : String) = s := by
  cases s; rfl

theorem str_data_append (a b : String) : (a ++ b).data = a.data ++ b.data := by
  cases a; cases b; rfl

theorem digitCh_isDigit (n : Nat) : (digitCh n).isDigit = true := by
  unfold digitCh
  split <;> decide

theorem natToRevDigitsAux_digits :
    ∀ (fuel n : Nat) (c : Char), c ∈ natToRevDigitsAux fuel n → c.isDigit = true := by
  intro fuel
  induction fuel with
  | zero =>
    intro n c hc
    simp only [natToRevDigitsAux, List.mem_singleton] at hc
    subst hc; exact digitCh_isDigit _
  | succ f ih =>
    intro n c hc
    simp only [natToRevDigitsAux] at hc
    by_cases h : n < 10
    · simp [h] at hc; subst hc; exact digitCh_isDigit _
    · simp [h] at hc
      rcases hc with hc | hc
      · subst hc; exact digitCh_isDigit _
      · exact ih _ c hc

theorem natToRevDigitsAux_ne_nil (fuel n : Nat) : natToRevDigitsAux fuel n ≠ [] := by
  cases fuel with
  | zero => simp [natToRevDigitsAux]
  | succ f =>
    simp only [natToRevDigitsAux]
    by_cases h : n < 10 <;> simp [h]

theorem isoformat_data (t : Nat) : (isoformat t).data = (natToRevDigits t).reverse := rfl

theorem isoformat_all_digits (t : Nat) :
    ∀ c ∈ (isoformat t).data, c.isDigit = true := by
  intro c hc
  rw [isoformat_data, List.mem_reverse] at hc
  exact natToRevDigitsAux_digits t t c hc

theorem isoformat_ne_nil (t : Nat) : (isoformat t).data ≠ [] := by
  rw [isoformat_data]
  simp only [ne_eq, List.reverse_eq_nil_iff]
  exact natToRevDigitsAux_ne_nil t t

theorem digitVal_digitCh (d : Nat) (h : d < 10) : digitVal (digitCh d) = d := by
  interval_cases d <;> decide

theorem digitsVal_append_one (l : List Char) (c : Char) :
    digitsVal (l ++ [c]) = digitsVal l * 10 + digitVal c := by
  simp [digitsVal, List.foldl_append]

theorem digitsVal_single (c : Char) : digitsVal [c] = digitVal c := by
  simp [digitsVal, List.foldl]

theorem natToRevDigitsAux_roundtrip :
    ∀ (fuel n : Nat), n ≤ fuel →
      digitsVal ((natToRevDigitsAux fuel n).reverse) = n := by
  intro fuel
  induction fuel with
  | zero =>
    intro n hn
    have : n = 0 := Nat.le_zero.mp hn
    subst this
    decide
  | succ f ih =>
    intro n hn
    by_cases h : n < 10
    · have heq : natToRevDigitsAux (f + 1) n = [digitCh n] := by
        simp [natToRevDigitsAux, h]
      rw [heq, List.reverse_singleton, digitsVal_single, digitVal_digitCh n h]
    · have heq : natToRevDigitsAux (f + 1) n =
          digitCh (n % 10) :: natToRevDigitsAux f (n / 10) := by
        simp [natToRevDigitsAux, h]
      have hdiv : n / 10 ≤ f := by
        have := Nat.div_lt_self (by omega : 0 < n) (by omega : 1 < 10)
        omega
      rw [heq, List.reverse_cons, digitsVal_append_one, ih (n / 10) hdiv,
        digitVal_digitCh (n % 10) (Nat.mod_lt n (by omega))]
      omega

theorem parseTimestamp_isoformat (t : Nat) : parseTimestamp (isoformat t) = some t := by
  unfold parseTimestamp
  rw [if_pos]
  · rw [isoformat_data]
    exact congrArg some (natToRevDigitsAux_roundtrip t t le_rfl)
  · refine ⟨isoformat_ne_nil t, ?_⟩
    rw [List.all_eq_true]
    exact isoformat_all_digits t

theorem isTsChar_of_digit {c : Char} (h : c.isDigit = true) : isTsChar c = true := by
  simp [isTsChar, h]

/-! ## Lemmas about the deprecation-marker scan -/

theorem findDepDateCh_cons_ne {c : Char} (rest : List Char) (h : c ≠ '(') :
    findDepDateCh (c :: rest) = findDepDateCh rest := by
  have hsw : startsWithCh asOfTag (c :: rest) = false := by
    simp only [asOfTag, startsWithCh, Bool.and_eq_false_iff]
    left
    simp [beq_eq_false_iff_ne]
    exact fun hh => h hh.symm
  simp [findDepDateCh, hsw]

theorem findDepDateCh_prepend : ∀ (u s : List Char), (∀ c ∈ u, c ≠ '(') →
    findDepDateCh (u ++ s) = findDepDateCh s := by
  intro u
  induction u with
  | nil => intro s _; rfl
  | cons c cs ih =>
    intro s hu
    rw [List.cons_append, findDepDateCh_cons_ne _ (hu c (List.mem_cons_self c cs))]
    exact ih s fun d hd => hu d (List.mem_cons_of_mem c hd)

theorem takeWhile_all_append {p : Char → Bool} :
    ∀ (a : List Char) (b : Char) (r : List Char), (∀ c ∈ a, p c = true) → p b = false →
      (a ++ b :: r).takeWhile p = a ∧ (a ++ b :: r).dropWhile p = b :: r := by
  intro a
  induction a with
  | nil =>
    intro b r _ hb
    constructor
    · simp [List.takeWhile, hb]
    · simp [List.dropWhile, hb]
  | cons x xs ih =>
    intro b r ha hb
    have hx : p x = true := ha x (List.mem_cons_self x xs)
    have := ih b r (fun c hc => ha c (List.mem_cons_of_mem x hc)) hb
    constructor
    · simp [List.takeWhile, hx, this.1]
    · simp [List.dropWhile, hx, this.2]

theorem depMarkDesc_data (t : Nat) (d : String) :
    (depMarkDesc t d).data =
      "**DEPRECATED** ".data ++ asOfTag ++ (isoformat t).data
        ++ ')' :: '\n' :: '\n' :: d.data := by
  simp only [depMarkDesc, str_data_append]
  simp [asOfTag]

theorem findDepDate_depMark (t : Nat) (d : String) :
    findDepDate (depMarkDesc t d) = some (isoformat t) := by
  unfold findDepDate
  rw [depMarkDesc_data]
  rw [List.append_assoc, List.append_assoc]
  rw [findDepDateCh_prepend "**DEPRECATED** ".data _ (by decide)]
  rw [← List.append_assoc]
  have hd : asOfTag ++ ((isoformat t).data ++ ')' :: '\n' :: '\n' :: d.data) =
      '(' :: ('a' :: 's' :: ' ' :: 'o' :: 'f' :: ' ' ::
        ((isoformat t).data ++ ')' :: '\n' :: '\n' :: d.data)) := by
    simp [asOfTag]
  have hsw : startsWithCh asOfTag (asOfTag ++ ((isoformat t).data
      ++ ')' :: '\n' :: '\n' :: d.data)) = true := startsWithCh_self_append _ _
  have htw := takeWhile_all_append (p := isTsChar) (isoformat t).data ')'
    ('\n' :: '\n' :: d.data)
    (fun c hc => isTsChar_of_digit (isoformat_all_digits t c hc)) (by decide)
  rw [List.append_assoc]
  rw [hd]
  rw [hd] at hsw
  unfold findDepDateCh
  rw [if_pos hsw]
  simp only [List.drop_succ_cons, List.drop_zero, htw.1, htw.2, List.head?_cons]
  rw [if_pos (by simp [isoformat_ne_nil t])]

theorem depMark_contains (t : Nat) (d : String) :
    containsSub (depMarkDesc t d) "**DEPRECATED**" = true := by
  unfold containsSub
  rw [depMarkDesc_data]
  apply containsCh_append_left
  apply containsCh_append_left
  apply containsCh_append_left
  have : "**DEPRECATED** ".data = "**DEPRECATED**".data ++ [' '] := by decide
  rw [this]
  exact (containsCh_iff _ _).mpr ⟨[], [' '], by simp⟩

/-! ## Absence of the deprecation marker from engine-written text -/

theorem marker_no_digit : ∀ c : Char, c.isDigit = true → c ∉ "**DEPRECATED**".data := by
  intro c hd hc
  have hM : "**DEPRECATED**".data =
      ['*', '*', 'D', 'E', 'P', 'R', 'E', 'C', 'A', 'T', 'E', 'D', '*', '*'] := rfl
  rw [hM] at hc
  fin_cases hc <;> exact absurd hd (by decide)

theorem contains_marker_false_of_digits {s : List Char}
    (h : ∀ c ∈ s, c.isDigit = true) :
    containsCh s "**DEPRECATED**".data = false := by
  by_contra hx
  have hx' : containsCh s "**DEPRECATED**".data = true := by
    cases hh : containsCh s "**DEPRECATED**".data
    · exact absurd hh hx
    · rfl
  rcases (containsCh_iff _ _).mp hx' with ⟨u, v, rfl⟩
  have hstar : '*' ∈ u ++ "**DEPRECATED**".data ++ v := by
    refine List.mem_append_left v ?_
    exact List.mem_append_right u (by decide)
  exact absurd (by decide : ('*').isDigit = true → False) fun _ => by
    exact (by decide : ¬ ('*').isDigit = true) (h '*' hstar)

theorem syncNote_data (t : Nat) :
    (syncNote t).data = "\n\n_Last synced: ".data ++ (isoformat t).data ++ "_".data := by
  simp only [syncNote, str_data_append]

theorem contains_marker_syncNote_false (t : Nat) :
    containsCh (syncNote t).data "**DEPRECATED**".data = false := by
  rw [syncNote_data, List.append_assoc]
  apply containsCh_append_eq_false_of_head (by decide)
  · apply containsCh_append_eq_false_of_head
    · exact contains_marker_false_of_digits (isoformat_all_digits t)
    · decide
    · intro c hc
      have h' : '_' = c := by
        have h0 : "_".data = ['_'] := rfl
        rw [h0] at hc
        simpa using hc
      rw [← h']; decide
  · intro c hc
    rcases hne : (isoformat t).data with _ | ⟨d0, ds⟩
    · exact absurd hne (isoformat_ne_nil t)
    · rw [hne] at hc
      simp only [List.cons_append, List.head?_cons, Option.some_inj] at hc
      subst hc
      have hd : d0.isDigit = true := by
        apply isoformat_all_digits t
        rw [hne]; exact List.mem_cons_self d0 ds
      exact marker_no_digit d0 hd

theorem marker_append_syncNote_false {a : List Char} (t : Nat)
    (ha : containsCh a "**DEPRECATED**".data = false) :
    containsCh (a ++ (syncNote t).data) "**DEPRECATED**".data = false := by
  apply containsCh_append_eq_false_of_head ha (contains_marker_syncNote_false t)
  intro c hc
  rw [syncNote_data] at hc
  have h' : '\n' = c := by
    have h0 : "\n\n_Last synced: ".data = '\n' :: "\n_Last synced: ".data := rfl
    rw [h0] at hc
    simpa using hc
  rw [← h']; decide

theorem method_space_no_marker (m : HttpMethod) :
    containsCh (m.value ++ " ").data "**DEPRECATED**".data = false := by
  cases m <;> decide

theorem method_space_last (m : HttpMethod) :
    (m.value ++ " ").data.getLast? = some ' ' := by
  cases m <;> decide

theorem default_desc_no_marker (r : Route) (now : Nat)
    (hfp : containsSub r.full_path "**DEPRECATED**" = false) :
    containsSub (r.method.value ++ " " ++ r.full_path ++ syncNote now) "**DEPRECATED**" = false := by
  unfold containsSub
  rw [str_data_append]
  apply marker_append_syncNote_false
  rw [str_data_append]
  apply containsCh_append_eq_false_of_last (method_space_no_marker r.method) hfp
  intro c hc
  rw [method_space_last r.method] at hc
  injection hc with hc
  subst hc; decide

/-! ## Field lemmas for the per-item operations -/

theorem ensure_auth_name (it : Item) :
    (ensure_auth_prerequest it).name = it.name := by
  cases it with
  | mk n r ev resp ch ex => simp only [ensure_auth_prerequest]; split <;> rfl

theorem ensure_auth_request (it : Item) :
    (ensure_auth_prerequest it).request = it.request := by
  cases it with
  | mk n r ev resp ch ex => simp only [ensure_auth_prerequest]; split <;> rfl

theorem ensure_auth_response (it : Item) :
    (ensure_auth_prerequest it).response = it.response := by
  cases it with
  | mk n r ev resp ch ex => simp only [ensure_auth_prerequest]; split <;> rfl

theorem ensure_auth_children (it : Item) :
    (ensure_auth_prerequest it).children = it.children := by
  cases it with
  | mk n r ev resp ch ex => simp only [ensure_auth_prerequest]; split <;> rfl

theorem ensure_auth_extra (it : Item) :
    (ensure_auth_prerequest it).extra = it.extra := by
  cases it with
  | mk n r ev resp ch ex => simp only [ensure_auth_prerequest]; split <;> rfl

theorem item_desc_ensure_auth (it : Item) :
    item_desc (ensure_auth_prerequest it) = item_desc it := by
  unfold item_desc
  rw [ensure_auth_request it]

theorem ensure_auth_name_mk (n : Option String) (r : Option Request)
    (ev : Option (List PEvent)) (resp : Option (List Nat)) (ch : Children) (ex : Nat) :
    (ensure_auth_prerequest (.mk n r ev resp ch ex)).name = n :=
  ensure_auth_name (.mk n r ev resp ch ex)

theorem ensure_auth_request_mk (n : Option String) (r : Option Request)
    (ev : Option (List PEvent)) (resp : Option (List Nat)) (ch : Children) (ex : Nat) :
    (ensure_auth_prerequest (.mk n r ev resp ch ex)).request = r :=
  ensure_auth_request (.mk n r ev resp ch ex)

theorem ensure_auth_response_mk (n : Option String) (r : Option Request)
    (ev : Option (List PEvent)) (resp : Option (List Nat)) (ch : Children) (ex : Nat) :
    (ensure_auth_prerequest (.mk n r ev resp ch ex)).response = resp :=
  ensure_auth_response (.mk n r ev resp ch ex)

theorem ensure_auth_children_mk (n : Option String) (r : Option Request)
    (ev : Option (List PEvent)) (resp : Option (List Nat)) (ch : Children) (ex : Nat) :
    (ensure_auth_prerequest (.mk n r ev resp ch ex)).children = ch :=
  ensure_auth_children (.mk n r ev resp ch ex)

theorem ensure_auth_extra_mk (n : Option String) (r : Option Request)
    (ev : Option (List PEvent)) (resp : Option (List Nat)) (ch : Children) (ex : Nat) :
    (ensure_auth_prerequest (.mk n r ev resp ch ex)).extra = ex :=
  ensure_auth_extra (.mk n r ev resp ch ex)

theorem update_request_name (it : Item) (r : Route) (now : Nat) :
    (update_request it r now).name = it.name := by
  cases it with
  | mk n r0 ev resp ch ex =>
    cases r0 <;> simp only [update_request] <;> split <;>
      (try simp only [ensure_auth_name_mk]) <;> rfl

theorem update_request_response (it : Item) (r : Route) (now : Nat) :
    (update_request it r now).response = it.response := by
  cases it with
  | mk n r0 ev resp ch ex =>
    cases r0 <;> simp only [update_request] <;> split <;>
      (try simp only [ensure_auth_response_mk]) <;> rfl

theorem update_request_children (it : Item) (r : Route) (now : Nat) :
    (update_request it r now).children = it.children := by
  cases it with
  | mk n r0 ev resp ch ex =>
    cases r0 <;> simp only [update_request] <;> split <;>
      (try simp only [ensure_auth_children_mk]) <;> rfl

theorem update_request_extra (it : Item) (r : Route) (now : Nat) :
    (update_request it r now).extra = it.extra := by
  cases it with
  | mk n r0 ev resp ch ex =>
    cases r0 <;> simp only [update_request] <;> split <;>
      (try simp only [ensure_auth_extra_mk]) <;> rfl

theorem update_request_isSome (it : Item) (r : Route) (now : Nat) :
    (update_request it r now).request.isSome = it.request.isSome := by
  cases it with
  | mk n r0 ev resp ch ex =>
    cases r0 <;> simp only [update_request] <;> split <;>
      (try simp only [ensure_auth_request_mk]) <;> rfl

theorem mark_deprecated_cases (now : Nat) (it : Item) :
    mark_deprecated_item now it = it ∨
    ∃ n req ev resp ch ex, it = .mk n (some req) ev resp ch ex ∧
      mark_deprecated_item now it =
        .mk n (some { req with
          description := some (depMarkDesc now (req.description.getD "")) }) ev resp ch ex := by
  cases it with
  | mk n r0 ev resp ch ex =>
    cases r0 with
    | none => exact Or.inl rfl
    | some req =>
      simp only [mark_deprecated_item]
      split
      · exact Or.inl rfl
      · exact Or.inr ⟨n, req, ev, resp, ch, ex, rfl, rfl⟩

theorem mark_deprecated_name (now : Nat) (it : Item) :
    (mark_deprecated_item now it).name = it.name := by
  rcases mark_deprecated_cases now it with h | ⟨n, req, ev, resp, ch, ex, h1, h2⟩
  · rw [h]
  · subst h1
    rw [h2]
    rfl

theorem mark_deprecated_response (now : Nat) (it : Item) :
    (mark_deprecated_item now it).response = it.response := by
  rcases mark_deprecated_cases now it with h | ⟨n, req, ev, resp, ch, ex, h1, h2⟩
  · rw [h]
  · subst h1
    rw [h2]
    rfl

theorem mark_deprecated_children (now : Nat) (it : Item) :
    (mark_deprecated_item now it).children = it.children := by
  rcases mark_deprecated_cases now it with h | ⟨n, req, ev, resp, ch, ex, h1, h2⟩
  · rw [h]
  · subst h1
    rw [h2]
    rfl

theorem mark_deprecated_extra (now : Nat) (it : Item) :
    (mark_deprecated_item now it).extra = it.extra := by
  rcases mark_deprecated_cases now it with h | ⟨n, req, ev, resp, ch, ex, h1, h2⟩
  · rw [h]
  · subst h1
    rw [h2]
    rfl

theorem mark_deprecated_isSome (now : Nat) (it : Item) :
    (mark_deprecated_item now it).request.isSome = it.request.isSome := by
  rcases mark_deprecated_cases now it with h | ⟨n, req, ev, resp, ch, ex, h1, h2⟩
  · rw [h]
  · subst h1
    rw [h2]; rfl

theorem mark_deprecated_event (now : Nat) (it : Item) :
    (mark_deprecated_item now it).event = it.event := by
  rcases mark_deprecated_cases now it with h | ⟨n, req, ev, resp, ch, ex, h1, h2⟩
  · rw [h]
  · subst h1
    rw [h2]
    rfl

theorem mark_deprecated_uid (now : Nat) (it : Item) :
    itemUid (mark_deprecated_item now it) = itemUid it := by
  rcases mark_deprecated_cases now it with h | ⟨n, req, ev, resp, ch, ex, h1, h2⟩
  · rw [h]
  · subst h1
    rw [h2]
    simp [itemUid, Item.request, uidOfRequest]

theorem mark_id_of_marked {it : Item} (now : Nat)
    (h : containsSub (item_desc it) "**DEPRECATED**" = true) :
    mark_deprecated_item now it = it := by
  cases it with
  | mk n r0 ev resp ch ex =>
    cases r0 with
    | none =>
      have hfalse : containsSub (item_desc (Item.mk n none ev resp ch ex))
          "**DEPRECATED**" = false := by
        have hd : item_desc (Item.mk n none ev resp ch ex) = "" := rfl
        rw [hd]; decide
      rw [h] at hfalse
      cases hfalse
    | some req =>
      simp only [mark_deprecated_item]
      rw [if_pos (by simpa [item_desc] using h)]

theorem mark_result_marked {it : Item} (now : Nat) (h : it.request.isSome = true) :
    containsSub (item_desc (mark_deprecated_item now it)) "**DEPRECATED**" = true := by
  cases it with
  | mk n r0 ev resp ch ex =>
    cases r0 with
    | none => simp [Item.request] at h
    | some req =>
      simp only [mark_deprecated_item]
      by_cases hm : containsSub (req.description.getD "") "**DEPRECATED**" = true
      · rw [if_pos (by simpa [item_desc] using hm)]
        simpa [item_desc] using hm
      · rw [if_neg (by simpa [item_desc] using hm)]
        simpa [item_desc] using depMark_contains now (req.description.getD "")

/-! ## URL round trip -/

theorem splitOnChar_ne_nil (sep : Char) : ∀ l : List Char, splitOnChar sep l ≠ [] := by
  intro l
  cases l with
  | nil => simp [splitOnChar]
  | cons c cs =>
    unfold splitOnChar
    rcases h : splitOnChar sep cs with _ | ⟨h0, t⟩
    · simp
    · by_cases hc : (c == sep) = true <;> simp [hc]

theorem intercalCh_splitOnChar (sep : Char) : ∀ l : List Char,
    intercalCh sep (splitOnChar sep l) = l := by
  intro l
  induction l with
  | nil => rfl
  | cons c cs ih =>
    unfold splitOnChar
    rcases h : splitOnChar sep cs with _ | ⟨h0, t⟩
    · exact absurd h (splitOnChar_ne_nil sep cs)
    · rw [h] at ih
      by_cases hc : (c == sep) = true
      · simp only [hc, if_true]
        have hceq : c = sep := by simpa using hc
        cases t with
        | nil =>
          simp only [intercalCh] at ih ⊢
          rw [ih, hceq]
          rfl
        | cons t0 ts =>
          simp only [intercalCh] at ih ⊢
          rw [ih, hceq]
          rfl
      · simp only [hc, if_false]
        cases t with
        | nil => simp only [intercalCh] at ih ⊢; rw [ih]
        | cons t0 ts =>
          simp only [intercalCh, List.cons_append] at ih ⊢
          rw [ih]

theorem extract_path_obj_segs (raw : Option String) (host : Option (List String))
    (l : List String) :
    extract_path (some (.obj raw host (some (.segs l)))) = "/" ++ joinSlash l := rfl

theorem extract_build_roundtrip {p : String} (h : normalizedPath p = true) :
    extract_path (some (build_url p)) = p := by
  unfold normalizedPath at h
  rw [Bool.and_eq_true] at h
  obtain ⟨hsw, hall⟩ := h
  rcases (startsWithCh_iff _ _).mp hsw with ⟨t, hdata⟩
  have hcons : p.data = '/' :: t := by rw [hdata]; rfl
  have h1 : splitOnChar '/' ('/' :: t) = [] :: splitOnChar '/' t := by
    rcases hs : splitOnChar '/' t with _ | ⟨h0, t'⟩
    · exact absurd hs (splitOnChar_ne_nil '/' t)
    · simp [splitOnChar, hs]
  have hsplit : pySplitSlash p = "" :: (splitOnChar '/' t).map (fun l => (⟨l⟩ : String)) := by
    unfold pySplitSlash
    rw [hcons, h1]
    rfl
  have htail : ∀ s ∈ (splitOnChar '/' t).map (fun l => (⟨l⟩ : String)), s ≠ "" := by
    intro s hs
    rw [List.all_eq_true] at hall
    have : s ∈ (pySplitSlash p).tail := by rw [hsplit]; simpa using hs
    simpa using hall s this
  have hfilter : ((pySplitSlash p).filter (fun q => q ≠ "")) =
      (splitOnChar '/' t).map (fun l => (⟨l⟩ : String)) := by
    rw [hsplit, List.filter_cons]
    simp only [decide_not]
    rw [if_neg (by simp)]
    exact List.filter_eq_self.mpr (fun a ha => by simpa using htail a ha)
  have hbuild : build_url p = Url.obj (some ("\x7b\x7bbaseUrl\x7d\x7d" ++ p))
      (some ["\x7b\x7bbaseUrl\x7d\x7d"])
      (some (.segs ((splitOnChar '/' t).map (fun l => (⟨l⟩ : String))))) := by
    unfold build_url
    rw [hfilter]
  rw [hbuild, extract_path_obj_segs]
  have hmm : ((splitOnChar '/' t).map (fun l => (⟨l⟩ : String))).map String.data =
      splitOnChar '/' t := by
    rw [List.map_map]
    have : (String.data ∘ fun l => (⟨l⟩ : String)) = id := by
      funext l; rfl
    rw [this, List.map_id]
  unfold joinSlash
  rw [hmm, intercalCh_splitOnChar]
  have : ("/" : String) ++ (⟨t⟩ : String) = ⟨'/' :: t⟩ := rfl
  rw [this, ← hcons, strEta]

theorem uidOfRequest_built (r : Route) (d : Option String) (hdr : Option (List Nat))
    (ex : Nat) (h : normalizedPath r.full_path = true) :
    uidOfRequest (Request.mk r.method.value (some (build_url r.full_path)) d hdr ex) =
      r.unique_id := by
  unfold uidOfRequest
  simp only
  rw [extract_build_roundtrip h]
  rfl

theorem build_request_item_uid (r : Route) (now : Nat)
    (h : normalizedPath r.full_path = true) :
    itemUid (build_request_item r now) = some r.unique_id := by
  unfold build_request_item
  simp only
  split
  · simp only [itemUid, ensure_auth_request_mk, Option.map_some']
    rw [uidOfRequest_built r _ _ _ h]
  · simp only [itemUid, Item.request, Option.map_some']
    rw [uidOfRequest_built r _ _ _ h]

theorem update_request_uid (it : Item) (r : Route) (now : Nat)
    (hs : it.request.isSome = true)
    (h : normalizedPath r.full_path = true) :
    itemUid (update_request it r now) = some r.unique_id := by
  cases it with
  | mk n r0 ev resp ch ex =>
    cases r0 with
    | none => simp [Item.request] at hs
    | some req =>
      simp only [update_request]
      split
      · simp only [itemUid, ensure_auth_request_mk, Option.map_some']
        rw [uidOfRequest_built r _ _ _ h]
      · simp only [itemUid, Item.request, Option.map_some']
        rw [uidOfRequest_built r _ _ _ h]

theorem itemUid_isSome {it : Item} {k : String} (h : itemUid it = some k) :
    it.request.isSome = true := by
  unfold itemUid at h
  cases hr : it.request with
  | none => rw [hr] at h; cases h
  | some req => rfl

theorem update_desc_unmarked (it : Item) (r : Route) (now : Nat)
    (hd : containsSub (item_desc it) "**DEPRECATED**" = false)
    (hr : routeCleanText r = true) :
    containsSub (item_desc (update_request it r now)) "**DEPRECATED**" = false := by
  unfold routeCleanText at hr
  rw [Bool.and_eq_true, Bool.not_eq_true', Bool.not_eq_true'] at hr
  cases it with
  | mk n r0 ev resp ch ex =>
    cases r0 with
    | none =>
      simp only [update_request]
      split
      · rw [item_desc_ensure_auth]; exact hd
      · exact hd
    | some req =>
      have hcur : item_desc (Item.mk n (some req) ev resp ch ex) =
          req.description.getD "" := rfl
      rw [hcur] at hd
      have hbase : ∀ b : String,
          b = (if containsSub (req.description.getD "") "_Last synced:" = true then
            pyRstrip (splitFirst (req.description.getD "") "_Last synced:")
          else req.description.getD "") →
          containsCh b.data "**DEPRECATED**".data = false := by
        intro b hb
        by_cases hls : containsSub (req.description.getD "") "_Last synced:" = true
        · rw [if_pos hls] at hb
          subst hb
          apply containsCh_false_of_start _ hd
          rcases rstrip_is_start (splitFirst (req.description.getD "") "_Last synced:")
            with ⟨t1, ht1⟩
          rcases splitFirstCh_is_start (req.description.getD "").data
            "_Last synced:".data with ⟨t2, ht2⟩
          refine ⟨t1 ++ t2, ?_⟩
          have hsf : (splitFirst (req.description.getD "") "_Last synced:").data =
              splitFirstCh (req.description.getD "").data "_Last synced:".data := rfl
          rw [← List.append_assoc, ht1, hsf, ht2]
        · rw [if_neg hls] at hb
          subst hb
          exact hd
      have hbase2 : ∀ b2 : String,
          containsCh b2.data "**DEPRECATED**".data = false →
          containsSub (b2 ++ syncNote now) "**DEPRECATED**" = false := by
        intro b2 hb2
        unfold containsSub
        rw [str_data_append]
        exact marker_append_syncNote_false now hb2
      simp only [update_request]
      split
      · rw [item_desc_ensure_auth]
        have hdesc : item_desc (Item.mk n (some { req with
            description := some ((if ((if containsSub (req.description.getD "")
                "_Last synced:" = true then
              pyRstrip (splitFirst (req.description.getD "") "_Last synced:")
            else req.description.getD "") == "" && optStrTruthy r.description) = true then
              r.description.getD ""
            else if containsSub (req.description.getD "") "_Last synced:" = true then
              pyRstrip (splitFirst (req.description.getD "") "_Last synced:")
            else req.description.getD "") ++ syncNote now),
            url := some (build_url r.full_path),
            method := r.method.value }) ev resp ch ex) =
            (if ((if containsSub (req.description.getD "") "_Last synced:" = true then
              pyRstrip (splitFirst (req.description.getD "") "_Last synced:")
            else req.description.getD "") == "" && optStrTruthy r.description) = true then
              r.description.getD ""
            else if containsSub (req.description.getD "") "_Last synced:" = true then
              pyRstrip (splitFirst (req.description.getD "") "_Last synced:")
            else req.description.getD "") ++ syncNote now := rfl
        rw [hdesc]
        apply hbase2
        set b := (if containsSub (req.description.getD "") "_Last synced:" = true then
            pyRstrip (splitFirst (req.description.getD "") "_Last synced:")
          else req.description.getD "") with hb
        by_cases hc : (b == "" && optStrTruthy r.description) = true
        · rw [if_pos hc]; exact hr.1
        · rw [if_neg hc]; exact hbase b hb
      · have hdesc : item_desc (Item.mk n (some { req with
            description := some ((if ((if containsSub (req.description.getD "")
                "_Last synced:" = true then
              pyRstrip (splitFirst (req.description.getD "") "_Last synced:")
            else req.description.getD "") == "" && optStrTruthy r.description) = true then
              r.description.getD ""
            else if containsSub (req.description.getD "") "_Last synced:" = true then
              pyRstrip (splitFirst (req.description.getD "") "_Last synced:")
            else req.description.getD "") ++ syncNote now),
            url := some (build_url r.full_path),
            method := r.method.value }) ev resp ch ex) =
            (if ((if containsSub (req.description.getD "") "_Last synced:" = true then
              pyRstrip (splitFirst (req.description.getD "") "_Last synced:")
            else req.description.getD "") == "" && optStrTruthy r.description) = true then
              r.description.getD ""
            else if containsSub (req.description.getD "") "_Last synced:" = true then
              pyRstrip (splitFirst (req.description.getD "") "_Last synced:")
            else req.description.getD "") ++ syncNote now := rfl
        rw [hdesc]
        apply hbase2
        set b := (if containsSub (req.description.getD "") "_Last synced:" = true then
            pyRstrip (splitFirst (req.description.getD "") "_Last synced:")
          else req.description.getD "") with hb
        by_cases hc : (b == "" && optStrTruthy r.description) = true
        · rw [if_pos hc]; exact hr.1
        · rw [if_neg hc]; exact hbase b hb

/-! ## The update chain and `route_effect` -/

theorem update_chain_name (rs : List Route) (now : Nat) : ∀ it : Item,
    (rs.foldl (fun acc r => update_request acc r now) it).name = it.name := by
  induction rs with
  | nil => intro it; rfl
  | cons r rest ih =>
    intro it
    rw [List.foldl_cons, ih (update_request it r now), update_request_name]

theorem update_chain_response (rs : List Route) (now : Nat) : ∀ it : Item,
    (rs.foldl (fun acc r => update_request acc r now) it).response = it.response := by
  induction rs with
  | nil => intro it; rfl
  | cons r rest ih =>
    intro it
    rw [List.foldl_cons, ih (update_request it r now), update_request_response]

theorem update_chain_children (rs : List Route) (now : Nat) : ∀ it : Item,
    (rs.foldl (fun acc r => update_request acc r now) it).children = it.children := by
  induction rs with
  | nil => intro it; rfl
  | cons r rest ih =>
    intro it
    rw [List.foldl_cons, ih (update_request it r now), update_request_children]

theorem update_chain_extra (rs : List Route) (now : Nat) : ∀ it : Item,
    (rs.foldl (fun acc r => update_request acc r now) it).extra = it.extra := by
  induction rs with
  | nil => intro it; rfl
  | cons r rest ih =>
    intro it
    rw [List.foldl_cons, ih (update_request it r now), update_request_extra]

theorem update_chain_isSome (rs : List Route) (now : Nat) : ∀ it : Item,
    (rs.foldl (fun acc r => update_request acc r now) it).request.isSome
      = it.request.isSome := by
  induction rs with
  | nil => intro it; rfl
  | cons r rest ih =>
    intro it
    rw [List.foldl_cons, ih (update_request it r now), update_request_isSome]

theorem update_chain_uid (now : Nat) (k : String) : ∀ (rs : List Route) (it : Item),
    itemUid it = some k →
    (∀ r ∈ rs, r.unique_id = k ∧ normalizedPath r.full_path = true) →
    itemUid (rs.foldl (fun acc r => update_request acc r now) it) = some k := by
  intro rs
  induction rs with
  | nil => intro it hk _; exact hk
  | cons r rest ih =>
    intro it hk hall
    rw [List.foldl_cons]
    apply ih
    · rw [update_request_uid it r now (itemUid_isSome hk)
        (hall r (List.mem_cons_self r rest)).2]
      rw [(hall r (List.mem_cons_self r rest)).1]
    · exact fun r2 h2 => hall r2 (List.mem_cons_of_mem r h2)

theorem update_chain_desc_unmarked (now : Nat) : ∀ (rs : List Route) (it : Item),
    (∀ r ∈ rs, routeCleanText r = true) →
    containsSub (item_desc it) "**DEPRECATED**" = false →
    containsSub (item_desc (rs.foldl (fun acc r => update_request acc r now) it))
      "**DEPRECATED**" = false := by
  intro rs
  induction rs with
  | nil => intro it _ hd; exact hd
  | cons r rest ih =>
    intro it hall hd
    rw [List.foldl_cons]
    exact ih (update_request it r now)
      (fun r2 h2 => hall r2 (List.mem_cons_of_mem r h2))
      (update_desc_unmarked it r now hd (hall r (List.mem_cons_self r rest)))

theorem route_effect_name (routes : List Route) (now : Nat) (k : String) (it : Item) :
    (route_effect routes now k it).name = it.name := by
  unfold route_effect
  split
  · exact update_chain_name _ now it
  · exact mark_deprecated_name now it

theorem route_effect_response (routes : List Route) (now : Nat) (k : String) (it : Item) :
    (route_effect routes now k it).response = it.response := by
  unfold route_effect
  split
  · exact update_chain_response _ now it
  · exact mark_deprecated_response now it

theorem route_effect_children (routes : List Route) (now : Nat) (k : String) (it : Item) :
    (route_effect routes now k it).children = it.children := by
  unfold route_effect
  split
  · exact update_chain_children _ now it
  · exact mark_deprecated_children now it

theorem route_effect_isSome (routes : List Route) (now : Nat) (k : String) (it : Item) :
    (route_effect routes now k it).request.isSome = it.request.isSome := by
  unfold route_effect
  split
  · exact update_chain_isSome _ now it
  · exact mark_deprecated_isSome now it

theorem route_effect_uid (routes : List Route) (now : Nat) (k : String) (it : Item)
    (hnorm : ∀ r ∈ routes, normalizedPath r.full_path = true)
    (hk : itemUid it = some k) :
    itemUid (route_effect routes now k it) = some k := by
  unfold route_effect
  split
  · apply update_chain_uid now k _ it hk
    intro r hr
    rw [List.mem_filter] at hr
    exact ⟨by simpa using hr.2, hnorm r hr.1⟩
  · rw [mark_deprecated_uid, hk]

/-! ## Commutation of the per-item effects with `viewOf` -/

theorem viewOf_viewOf (it : Item) : viewOf (viewOf it) = viewOf it := by
  cases it; rfl

theorem viewOf_mk (n : Option String) (r : Option Request) (ev : Option (List PEvent))
    (resp : Option (List Nat)) (ch : Children) (ex : Nat) :
    viewOf (.mk n r ev resp ch ex) = .mk n r ev resp .noKey ex := rfl

theorem viewOf_ensure_auth (it : Item) :
    viewOf (ensure_auth_prerequest it) = ensure_auth_prerequest (viewOf it) := by
  cases it with
  | mk n r ev resp ch ex =>
    by_cases hc : ((ev.getD []).any fun e => e.listen == some "prerequest") = true <;>
      simp [ensure_auth_prerequest, viewOf, hc]

theorem viewOf_update_request (it : Item) (r : Route) (now : Nat) :
    viewOf (update_request it r now) = update_request (viewOf it) r now := by
  cases it with
  | mk n r0 ev resp ch ex =>
    rw [viewOf_mk]
    cases r0 with
    | none =>
      simp only [update_request]
      by_cases hp : route_is_protected r = true
      · rw [if_pos hp, if_pos hp, viewOf_ensure_auth]
        simp only [viewOf_mk]
      · rw [if_neg hp, if_neg hp]
        simp only [viewOf_mk]
    | some req =>
      simp only [update_request]
      by_cases hp : route_is_protected r = true
      · rw [if_pos hp, if_pos hp, viewOf_ensure_auth]
        simp only [viewOf_mk]
      · rw [if_neg hp, if_neg hp]
        simp only [viewOf_mk]

theorem viewOf_mark_deprecated (it : Item) (now : Nat) :
    viewOf (mark_deprecated_item now it) = mark_deprecated_item now (viewOf it) := by
  cases it with
  | mk n r0 ev resp ch ex =>
    cases r0 with
    | none => rfl
    | some req =>
      by_cases hc : containsSub (req.description.getD "") "**DEPRECATED**" = true <;>
        simp [mark_deprecated_item, viewOf, hc]

theorem viewOf_update_chain (rs : List Route) (now : Nat) : ∀ it : Item,
    viewOf (rs.foldl (fun acc r => update_request acc r now) it) =
      rs.foldl (fun acc r => update_request acc r now) (viewOf it) := by
  induction rs with
  | nil => intro it; rfl
  | cons r rest ih =>
    intro it
    rw [List.foldl_cons, List.foldl_cons, ih, viewOf_update_request]

theorem viewOf_route_effect (routes : List Route) (now : Nat) (k : String) (it : Item) :
    viewOf (route_effect routes now k it) = route_effect routes now k (viewOf it) := by
  unfold route_effect
  split
  · exact viewOf_update_chain _ now it
  · exact viewOf_mark_deprecated it now

/-! ## List-level behaviour of the first-occurrence transform -/

theorem tviews_append (g : String → Item → Item) :
    ∀ (xs ys : List (String × Item)) (seen : List String),
      tviews g (xs ++ ys) seen =
        ((tviews g xs seen).1 ++ (tviews g ys (tviews g xs seen).2).1,
          (tviews g ys (tviews g xs seen).2).2) := by
  intro xs
  induction xs with
  | nil => intro ys seen; rfl
  | cons p rest ih =>
    intro ys seen
    rcases p with ⟨k, v⟩
    simp only [List.cons_append, tviews, List.append_eq]
    by_cases hc : seen.contains k = true
    · rw [if_pos hc, if_pos hc, ih ys seen]
      rfl
    · rw [if_neg hc, if_neg hc, ih ys (k :: seen)]
      rfl

theorem tviews_keys (g : String → Item → Item) :
    ∀ (l : List (String × Item)) (seen : List String),
      ((tviews g l seen).1).map Prod.fst = l.map Prod.fst := by
  intro l
  induction l with
  | nil => intro seen; rfl
  | cons p rest ih =>
    intro seen
    rcases p with ⟨k, v⟩
    simp only [tviews]
    by_cases hc : seen.contains k = true
    · rw [if_pos hc]
      simp only [List.map_cons]
      rw [ih seen]
    · rw [if_neg hc]
      simp only [List.map_cons]
      rw [ih (k :: seen)]

theorem tviews_cons_fst (g : String → Item → Item) (k : String) (v : Item)
    (rest : List (String × Item)) (seen : List String) :
    (tviews g ((k, v) :: rest) seen).1 =
      if seen.contains k then (k, v) :: (tviews g rest seen).1
      else (k, g k v) :: (tviews g rest (k :: seen)).1 := by
  simp only [tviews]
  by_cases hc : seen.contains k = true
  · rw [if_pos hc, if_pos hc]
  · rw [if_neg hc, if_neg hc]

theorem tviews_cons_snd (g : String → Item → Item) (k : String) (v : Item)
    (rest : List (String × Item)) (seen : List String) :
    (tviews g ((k, v) :: rest) seen).2 =
      if seen.contains k then (tviews g rest seen).2
      else (tviews g rest (k :: seen)).2 := by
  simp only [tviews]
  by_cases hc : seen.contains k = true
  · rw [if_pos hc, if_pos hc]
  · rw [if_neg hc, if_neg hc]

theorem contains_cons_of_ne {k k0 : String} (seen : List String)
    (h : ¬(k0 == k) = true) : (k0 :: seen).contains k = seen.contains k := by
  have hne : (k == k0) = false := by
    rw [beq_eq_false_iff_ne]
    intro he
    subst he
    exact h (by simp)
  simp only [List.contains_cons, hne, Bool.false_or]

theorem tviews_find (g : String → Item → Item) (k : String) :
    ∀ (l : List (String × Item)) (seen : List String),
      ((tviews g l seen).1).find? (fun p => p.1 == k) =
        if seen.contains k then l.find? (fun p => p.1 == k)
        else (l.find? (fun p => p.1 == k)).map (fun p => (p.1, g p.1 p.2)) := by
  intro l
  induction l with
  | nil =>
    intro seen
    by_cases hs : seen.contains k = true <;> simp [tviews, hs]
  | cons p rest ih =>
    intro seen
    rcases p with ⟨k0, v⟩
    rw [tviews_cons_fst]
    by_cases hs : seen.contains k0 = true
    · rw [if_pos hs]
      by_cases hk : (k0 == k) = true
      · have hkeq : k0 = k := by simpa using hk
        subst hkeq
        have hsk := hs
        rw [List.find?_cons_of_pos _ (by simp), if_pos hsk,
          List.find?_cons_of_pos _ (by simp)]
      · rw [List.find?_cons_of_neg _ (by simpa using hk), ih seen]
        have hskip : List.find? (fun p => p.1 == k) ((k0, v) :: rest) =
            List.find? (fun p => p.1 == k) rest :=
          List.find?_cons_of_neg _ (by simpa using hk)
        rw [hskip]
    · rw [if_neg hs]
      by_cases hk : (k0 == k) = true
      · have hkeq : k0 = k := by simpa using hk
        subst hkeq
        have hsk := hs
        rw [List.find?_cons_of_pos _ (by simp), if_neg hsk,
          List.find?_cons_of_pos _ (by simp)]
        rfl
      · rw [List.find?_cons_of_neg _ (by simpa using hk), ih (k0 :: seen),
          contains_cons_of_ne seen hk]
        have hskip : List.find? (fun p => p.1 == k) ((k0, v) :: rest) =
            List.find? (fun p => p.1 == k) rest :=
          List.find?_cons_of_neg _ (by simpa using hk)
        rw [hskip]

theorem tviews_mem_src (g : String → Item → Item) :
    ∀ (l : List (String × Item)) (seen : List String) (p : String × Item),
      p ∈ (tviews g l seen).1 → ∃ q ∈ l, p = q ∨ p = (q.1, g q.1 q.2) := by
  intro l
  induction l with
  | nil => intro seen p hp; simp [tviews] at hp
  | cons q0 rest ih =>
    intro seen p hp
    rcases q0 with ⟨k, v⟩
    rw [tviews_cons_fst] at hp
    by_cases hc : seen.contains k = true
    · rw [if_pos hc] at hp
      rcases List.mem_cons.mp hp with rfl | hp2
      · exact ⟨(k, v), List.mem_cons_self _ _, Or.inl rfl⟩
      · rcases ih _ p hp2 with ⟨q, hq, hor⟩
        exact ⟨q, List.mem_cons_of_mem _ hq, hor⟩
    · rw [if_neg hc] at hp
      rcases List.mem_cons.mp hp with rfl | hp2
      · exact ⟨(k, v), List.mem_cons_self _ _, Or.inr rfl⟩
      · rcases ih _ p hp2 with ⟨q, hq, hor⟩
        exact ⟨q, List.mem_cons_of_mem _ hq, hor⟩

theorem tviews_mem_id (g : String → Item → Item) (k : String) (v : Item)
    (hg : g k v = v) :
    ∀ (l : List (String × Item)) (seen : List String),
      (k, v) ∈ l → (k, v) ∈ (tviews g l seen).1 := by
  intro l
  induction l with
  | nil => intro seen h; simp at h
  | cons q0 rest ih =>
    intro seen h
    rcases q0 with ⟨k0, v0⟩
    rw [tviews_cons_fst]
    rcases List.mem_cons.mp h with heq | hmem
    · injection heq with h1 h2
      subst h1; subst h2
      by_cases hc : seen.contains k = true
      · rw [if_pos hc]
        exact List.mem_cons_self _ _
      · rw [if_neg hc, hg]
        exact List.mem_cons_self _ _
    · by_cases hc : seen.contains k0 = true
      · rw [if_pos hc]
        exact List.mem_cons_of_mem _ (ih seen hmem)
      · rw [if_neg hc]
        exact List.mem_cons_of_mem _ (ih (k0 :: seen) hmem)

/-! ## The fused traversal computes the list-level transform on views -/

theorem itemUid_some_elim {it : Item} {k : String} (h : itemUid it = some k) :
    ∃ req, it.request = some req ∧ uidOfRequest req = k := by
  unfold itemUid at h
  cases hr : it.request with
  | none => rw [hr] at h; cases h
  | some req =>
    rw [hr] at h
    simp only [Option.map_some', Option.some_inj] at h
    exact ⟨req, rfl, h⟩

mutual

theorem transform_views_I (f : String → Item → Item)
    (hU : ∀ k it, itemUid it = some k → itemUid (f k it) = some k)
    (hV : ∀ k it, viewOf (f k it) = f k (viewOf it)) :
    ∀ (it : Item) (seen : List String),
      (entriesI (transformI f it seen).1).map pairView =
        (tviews f ((entriesI it).map pairView) seen).1 ∧
      (transformI f it seen).2 = (tviews f ((entriesI it).map pairView) seen).2
  | .mk n r0 ev resp ch ex, seen => by
    cases r0 with
    | none =>
      obtain ⟨hC1, hC2⟩ := transform_views_C f hU hV ch seen
      simp only [transformI, entriesI, List.nil_append, List.map_append]
      constructor
      · simpa using hC1
      · simpa using hC2
    | some req =>
      by_cases hc : seen.contains (uidOfRequest req) = true
      · obtain ⟨hC1, hC2⟩ := transform_views_C f hU hV ch seen
        have hstep : transformI f (.mk n (some req) ev resp ch ex) seen =
            (.mk n (some req) ev resp (transformC f ch seen).1 ex,
              (transformC f ch seen).2) := by
          simp only [transformI, hc, if_pos]
        rw [hstep]
        have hent : (entriesI (Item.mk n (some req) ev resp (transformC f ch seen).1 ex)).map
            pairView = (uidOfRequest req,
              viewOf (Item.mk n (some req) ev resp (transformC f ch seen).1 ex)) ::
              (entriesC (transformC f ch seen).1).map pairView := by
          simp [entriesI, pairView]
        have hent0 : (entriesI (Item.mk n (some req) ev resp ch ex)).map pairView =
            (uidOfRequest req, viewOf (Item.mk n (some req) ev resp ch ex)) ::
              (entriesC ch).map pairView := by
          simp [entriesI, pairView]
        rw [hent, hent0, tviews_cons_fst, tviews_cons_snd, if_pos hc, if_pos hc]
        constructor
        · rw [viewOf_mk, viewOf_mk]
          exact congrArg _ hC1
        · exact hC2
      · obtain ⟨hC1, hC2⟩ := transform_views_C f hU hV ch (uidOfRequest req :: seen)
        have hid : itemUid (Item.mk n (some req) ev resp ch ex) =
            some (uidOfRequest req) := rfl
        obtain ⟨req1, hreq1, huid1⟩ :=
          itemUid_some_elim (hU (uidOfRequest req) _ hid)
        have hstep : transformI f (.mk n (some req) ev resp ch ex) seen =
            ((match f (uidOfRequest req) (.mk n (some req) ev resp ch ex) with
              | .mk n1 r1 ev1 resp1 _ ex1 =>
                Item.mk n1 r1 ev1 resp1 (transformC f ch (uidOfRequest req :: seen)).1 ex1),
              (transformC f ch (uidOfRequest req :: seen)).2) := by
          simp only [transformI, hc, if_neg]
          rfl
        rw [hstep]
        rcases hf : f (uidOfRequest req) (.mk n (some req) ev resp ch ex) with
          ⟨n1, r1, ev1, resp1, ch1, ex1⟩
        have hr1 : r1 = some req1 := by
          have h2 := hreq1
          rw [hf] at h2
          exact h2
        subst hr1
        have hent : (entriesI (Item.mk n1 (some req1) ev1 resp1
            (transformC f ch (uidOfRequest req :: seen)).1 ex1)).map pairView =
            (uidOfRequest req1, viewOf (Item.mk n1 (some req1) ev1 resp1
              (transformC f ch (uidOfRequest req :: seen)).1 ex1)) ::
              (entriesC (transformC f ch (uidOfRequest req :: seen)).1).map pairView := by
          simp [entriesI, pairView]
        have hent0 : (entriesI (Item.mk n (some req) ev resp ch ex)).map pairView =
            (uidOfRequest req, viewOf (Item.mk n (some req) ev resp ch ex)) ::
              (entriesC ch).map pairView := by
          simp [entriesI, pairView]
        rw [hent, hent0, tviews_cons_fst, tviews_cons_snd, if_neg hc, if_neg hc]
        constructor
        · rw [huid1]
          have hview : viewOf (Item.mk n1 (some req1) ev1 resp1
              (transformC f ch (uidOfRequest req :: seen)).1 ex1) =
              f (uidOfRequest req) (viewOf (Item.mk n (some req) ev resp ch ex)) := by
            rw [← hV]
            rw [hf]
            rw [viewOf_mk, viewOf_mk]
          rw [hview]
          exact congrArg _ hC1
        · exact hC2

theorem transform_views_C (f : String → Item → Item)
    (hU : ∀ k it, itemUid it = some k → itemUid (f k it) = some k)
    (hV : ∀ k it, viewOf (f k it) = f k (viewOf it)) :
    ∀ (ch : Children) (seen : List String),
      (entriesC (transformC f ch seen).1).map pairView =
        (tviews f ((entriesC ch).map pairView) seen).1 ∧
      (transformC f ch seen).2 = (tviews f ((entriesC ch).map pairView) seen).2
  | .noKey, seen => by
    simp [transformC, entriesC, tviews]
  | .withKey l, seen => by
    obtain ⟨hL1, hL2⟩ := transform_views_L f hU hV l seen
    simp only [transformC, entriesC]
    exact ⟨hL1, hL2⟩

theorem transform_views_L (f : String → Item → Item)
    (hU : ∀ k it, itemUid it = some k → itemUid (f k it) = some k)
    (hV : ∀ k it, viewOf (f k it) = f k (viewOf it)) :
    ∀ (l : ItemList) (seen : List String),
      (entriesL (transformL f l seen).1).map pairView =
        (tviews f ((entriesL l).map pairView) seen).1 ∧
      (transformL f l seen).2 = (tviews f ((entriesL l).map pairView) seen).2
  | .nil, seen => by
    simp [transformL, entriesL, tviews]
  | .cons it rest, seen => by
    obtain ⟨hI1, hI2⟩ := transform_views_I f hU hV it seen
    obtain ⟨hL1, hL2⟩ := transform_views_L f hU hV rest (transformI f it seen).2
    simp only [transformL, entriesL, List.map_append]
    rw [tviews_append]
    constructor
    · rw [hI2] at hL1
      rw [hI1, hI2, hL1]
    · rw [hI2] at hL2
      rw [hI2, hL2]

end

/-! ## Membership preservation through the fused traversal -/

mutual

theorem transform_mem_I (f : String → Item → Item) (k : String) (v : Item)
    (hfix : ∀ it2, itemUid it2 = some k → viewOf it2 = v → f k it2 = it2) :
    ∀ (it : Item) (seen : List String),
      (k, v) ∈ (entriesI it).map pairView →
      (k, v) ∈ (entriesI (transformI f it seen).1).map pairView
  | .mk n r0 ev resp ch ex, seen => by
    intro hmem
    cases r0 with
    | none =>
      simp only [transformI, entriesI, List.nil_append] at hmem ⊢
      exact transform_mem_C f k v hfix ch seen hmem
    | some req =>
      simp only [entriesI, List.map_append, List.mem_append] at hmem
      by_cases hc : seen.contains (uidOfRequest req) = true
      · have hstep : transformI f (.mk n (some req) ev resp ch ex) seen =
            (.mk n (some req) ev resp (transformC f ch seen).1 ex,
              (transformC f ch seen).2) := by
          simp only [transformI, hc, if_pos]
        rw [hstep]
        rcases hmem with hown | hch
        · simp only [List.map_cons, List.map_nil, List.mem_singleton] at hown
          simp only [entriesI, List.map_append, List.mem_append]
          left
          simp only [List.map_cons, List.map_nil, List.mem_singleton]
          rw [hown]
          simp [pairView, viewOf_mk]
        · simp only [entriesI, List.map_append, List.mem_append]
          right
          exact transform_mem_C f k v hfix ch seen hch
      · rcases hmem with hown | hch
        · simp only [List.map_cons, List.map_nil, List.mem_singleton] at hown
          have hk : k = uidOfRequest req := by
            have := congrArg Prod.fst hown
            simpa [pairView] using this
          have hv : v = viewOf (Item.mk n (some req) ev resp ch ex) := by
            have := congrArg Prod.snd hown
            simpa [pairView] using this
          have hfx : f (uidOfRequest req) (Item.mk n (some req) ev resp ch ex) =
              Item.mk n (some req) ev resp ch ex := by
            rw [← hk]
            exact hfix _ (by rw [hk]; rfl) hv.symm
          have hstep : transformI f (.mk n (some req) ev resp ch ex) seen =
              (.mk n (some req) ev resp
                  (transformC f ch (uidOfRequest req :: seen)).1 ex,
                (transformC f ch (uidOfRequest req :: seen)).2) := by
            simp only [transformI, hc, if_neg]
            rw [hfx]
            simp
          rw [hstep]
          simp only [entriesI, List.map_append, List.mem_append]
          left
          simp only [List.map_cons, List.map_nil, List.mem_singleton]
          rw [hown]
          simp [pairView, viewOf_mk]
        · have hch2 := transform_mem_C f k v hfix ch (uidOfRequest req :: seen) hch
          have hstep : transformI f (.mk n (some req) ev resp ch ex) seen =
              ((match f (uidOfRequest req) (.mk n (some req) ev resp ch ex) with
                | .mk n1 r1 ev1 resp1 _ ex1 =>
                  Item.mk n1 r1 ev1 resp1
                    (transformC f ch (uidOfRequest req :: seen)).1 ex1),
                (transformC f ch (uidOfRequest req :: seen)).2) := by
            simp only [transformI, hc, if_neg]
            rfl
          rw [hstep]
          rcases hf : f (uidOfRequest req) (.mk n (some req) ev resp ch ex) with
            ⟨n1, r1, ev1, resp1, ch1, ex1⟩
          simp only [entriesI, List.map_append, List.mem_append]
          right
          exact hch2

theorem transform_mem_C (f : String → Item → Item) (k : String) (v : Item)
    (hfix : ∀ it2, itemUid it2 = some k → viewOf it2 = v → f k it2 = it2) :
    ∀ (ch : Children) (seen : List String),
      (k, v) ∈ (entriesC ch).map pairView →
      (k, v) ∈ (entriesC (transformC f ch seen).1).map pairView
  | .noKey, seen => by
    intro h
    simp [entriesC] at h
  | .withKey l, seen => by
    intro h
    simp only [entriesC, transformC]
    exact transform_mem_L f k v hfix l seen (by simpa [entriesC] using h)

theorem transform_mem_L (f : String → Item → Item) (k : String) (v : Item)
    (hfix : ∀ it2, itemUid it2 = some k → viewOf it2 = v → f k it2 = it2) :
    ∀ (l : ItemList) (seen : List String),
      (k, v) ∈ (entriesL l).map pairView →
      (k, v) ∈ (entriesL (transformL f l seen).1).map pairView
  | .nil, seen => by
    intro h
    simp [entriesL] at h
  | .cons it rest, seen => by
    intro h
    simp only [entriesL, List.map_append, List.mem_append] at h
    simp only [transformL, entriesL, List.map_append, List.mem_append]
    rcases h with h | h
    · exact Or.inl (transform_mem_I f k v hfix it seen h)
    · exact Or.inr (transform_mem_L f k v hfix rest (transformI f it seen).2 h)

end

/-! ## Structure preservation through the fused traversal -/

theorem sep_noKey (n : Option String) (r : Option Request) (ev : Option (List PEvent))
    (resp : Option (List Nat)) (ex : Nat) :
    sepItem (.mk n r ev resp .noKey ex) = true := by
  cases r <;> rfl

theorem sep_mk_none_withKey (n : Option String) (ev : Option (List PEvent))
    (resp : Option (List Nat)) (l : ItemList) (ex : Nat) :
    sepItem (.mk n none ev resp (.withKey l) ex) = sepList l := rfl

theorem transformC_noKey (f : String → Item → Item) (seen : List String) :
    transformC f .noKey seen = (.noKey, seen) := rfl

theorem transformC_withKey (f : String → Item → Item) (l : ItemList) (seen : List String) :
    transformC f (.withKey l) seen =
      (.withKey (transformL f l seen).1, (transformL f l seen).2) := rfl

theorem transformI_shape (f : String → Item → Item) (n : Option String)
    (r0 : Option Request) (ev : Option (List PEvent)) (resp : Option (List Nat))
    (ch : Children) (ex : Nat) (seen : List String) :
    ∃ n1 r1 ev1 resp1 ex1 s1,
      (transformI f (.mk n r0 ev resp ch ex) seen).1 =
        .mk n1 r1 ev1 resp1 (transformC f ch s1).1 ex1 ∧
      (transformI f (.mk n r0 ev resp ch ex) seen).2 = (transformC f ch s1).2 ∧
      ((n1 = n ∧ r1 = r0 ∧ ev1 = ev ∧ resp1 = resp ∧ ex1 = ex) ∨
        ∃ k, itemUid (Item.mk n r0 ev resp ch ex) = some k ∧
          Item.mk n1 r1 ev1 resp1 (f k (.mk n r0 ev resp ch ex)).children ex1 =
            f k (.mk n r0 ev resp ch ex)) := by
  cases r0 with
  | none =>
    refine ⟨n, none, ev, resp, ex, seen, rfl, rfl, Or.inl ⟨rfl, rfl, rfl, rfl, rfl⟩⟩
  | some req =>
    by_cases hc : seen.contains (uidOfRequest req) = true
    · have hp : transformI f (.mk n (some req) ev resp ch ex) seen =
          (.mk n (some req) ev resp (transformC f ch seen).1 ex,
            (transformC f ch seen).2) := by
        simp only [transformI, hc, if_pos]
      refine ⟨n, some req, ev, resp, ex, seen, by rw [hp], by rw [hp],
        Or.inl ⟨rfl, rfl, rfl, rfl, rfl⟩⟩
    · rcases hf : f (uidOfRequest req) (.mk n (some req) ev resp ch ex) with
        ⟨n1, r1, ev1, resp1, ch1, ex1⟩
      have hp : transformI f (.mk n (some req) ev resp ch ex) seen =
          (.mk n1 r1 ev1 resp1 (transformC f ch (uidOfRequest req :: seen)).1 ex1,
            (transformC f ch (uidOfRequest req :: seen)).2) := by
        simp only [transformI, hc, if_neg, hf]
        simp
      refine ⟨n1, r1, ev1, resp1, ex1, uidOfRequest req :: seen, by rw [hp], by rw [hp],
        Or.inr ⟨uidOfRequest req, rfl, ?_⟩⟩
      rw [hf]
      rfl

mutual

theorem transform_sep_I (f : String → Item → Item)
    (hs : ∀ k it, (f k it).request.isSome = it.request.isSome) :
    ∀ (it : Item) (seen : List String), sepItem it = true →
      sepItem (transformI f it seen).1 = true
  | .mk n r0 ev resp ch ex, seen => by
    intro hsep
    obtain ⟨n1, r1, ev1, resp1, ex1, s1, heq, _, hcase⟩ :=
      transformI_shape f n r0 ev resp ch ex seen
    rw [heq]
    cases ch with
    | noKey =>
      rw [transformC_noKey]
      exact sep_noKey n1 r1 ev1 resp1 ex1
    | withKey l =>
      have hr0 : r0 = none := by
        cases r0 with
        | none => rfl
        | some req => simp [sepItem] at hsep
      subst hr0
      have hl : sepList l = true := by
        simpa [sepItem, sepChildren] using hsep
      have hr1 : r1 = none := by
        rcases hcase with ⟨_, hb, _⟩ | ⟨k, hk, hfk⟩
        · exact hb
        · have hiso := hs k (Item.mk n none ev resp (.withKey l) ex)
          rw [← hfk] at hiso
          simp only [Item.request] at hiso
          cases r1 with
          | none => rfl
          | some req1 => simp at hiso
      subst hr1
      rw [transformC_withKey]
      rw [sep_mk_none_withKey]
      exact transform_sep_L f hs l s1 hl

theorem transform_sep_L (f : String → Item → Item)
    (hs : ∀ k it, (f k it).request.isSome = it.request.isSome) :
    ∀ (l : ItemList) (seen : List String), sepList l = true →
      sepList (transformL f l seen).1 = true
  | .nil, seen => by intro h; exact h
  | .cons it rest, seen => by
    intro h
    rw [sepList] at h
    rw [Bool.and_eq_true] at h
    show sepList (.cons (transformI f it seen).1
      (transformL f rest (transformI f it seen).2).1) = true
    rw [sepList, Bool.and_eq_true]
    exact ⟨transform_sep_I f hs it seen h.1,
      transform_sep_L f hs rest (transformI f it seen).2 h.2⟩

end

/-! ## The removal pass -/

theorem removeI_view (cutoff : Nat) (it : Item) :
    viewOf (removeI cutoff it).1 = viewOf it := by
  cases it with
  | mk n r ev resp ch ex => cases ch <;> rfl

theorem removeL_append (cutoff : Nat) : ∀ a b : ItemList,
    (removeL cutoff (a.append b)).1 =
      (removeL cutoff a).1.append (removeL cutoff b).1 ∧
    (removeL cutoff (a.append b)).2 =
      (removeL cutoff a).2 ++ (removeL cutoff b).2
  | .nil, b => ⟨rfl, rfl⟩
  | .cons it rest, b => by
    obtain ⟨ih1, ih2⟩ := removeL_append cutoff rest b
    cases hc : remove_check cutoff it with
    | some uid =>
      constructor
      · show (removeL cutoff (.cons it (rest.append b))).1 = _
        simp only [removeL, hc, ih1]
      · show (removeL cutoff (.cons it (rest.append b))).2 = _
        simp only [removeL, hc, ih2, List.cons_append]
    | none =>
      constructor
      · show (removeL cutoff (.cons it (rest.append b))).1 = _
        simp only [removeL, hc, ih1]
        rfl
      · show (removeL cutoff (.cons it (rest.append b))).2 = _
        simp only [removeL, hc, ih2, List.append_assoc]

theorem remove_check_entry (cutoff : Nat) {it : Item} {k s : String} {T : Nat}
    (hk : itemUid it = some k)
    (hm : containsSub (item_desc it) "**DEPRECATED**" = true)
    (hfs : findDepDate (item_desc it) = some s)
    (hps : parseTimestamp s = some T) :
    remove_check cutoff it = if T < cutoff then some k else none := by
  obtain ⟨req, hreq, huid⟩ := itemUid_some_elim hk
  have hdesc : item_desc it = req.description.getD "" := by
    unfold item_desc
    rw [hreq]
  rw [hdesc] at hm hfs
  simp only [remove_check, hreq]
  rw [if_pos hm]
  simp only [hfs, hps, huid]

theorem remove_check_none_of_bad (cutoff : Nat) (it : Item)
    (hbad : (findDepDate (item_desc it)).bind parseTimestamp = none) :
    remove_check cutoff it = none := by
  cases hr : it.request with
  | none => simp only [remove_check, hr]
  | some req =>
    have hdesc : item_desc it = req.description.getD "" := by
      unfold item_desc
      rw [hr]
    rw [hdesc] at hbad
    simp only [remove_check, hr]
    by_cases hm : containsSub (req.description.getD "") "**DEPRECATED**" = true
    · rw [if_pos hm]
      cases hfd : findDepDate (req.description.getD "") with
      | none => rfl
      | some s =>
        rw [hfd] at hbad
        simp at hbad
        simp only [hbad]
    · rw [if_neg hm]

/-! ## The index as a first-binding-wins fold over the entry sequence -/

theorem indexAccAdd_find (k k0 : String) (v : Item) (acc : List (String × Item)) :
    ((indexAccAdd acc k0 v).find? (fun p => p.1 == k)) =
      ((acc.find? (fun p => p.1 == k)).or
        (if k0 == k then some (k0, v) else none)) := by
  unfold indexAccAdd
  by_cases ha : (acc.find? (fun p => p.1 == k0)).isSome = true
  · rw [if_pos ha]
    by_cases hk : (k0 == k) = true
    · have hkk : k0 = k := by simpa using hk
      subst hkk
      cases hf : acc.find? (fun p => p.1 == k0) with
      | none => rw [hf] at ha; simp at ha
      | some w => rfl
    · rw [if_neg hk]
      cases acc.find? (fun p => p.1 == k) <;> rfl
  · rw [if_neg ha]
    rw [List.find?_append]
    congr 1
    by_cases hk : (k0 == k) = true
    · rw [if_pos hk]
      simp [List.find?, hk]
    · rw [if_neg hk]
      simp [List.find?, hk]

theorem specIndex_find (k : String) : ∀ (rows acc : List (String × Item)),
    ((specIndex rows acc).find? (fun p => p.1 == k)) =
      ((acc.find? (fun p => p.1 == k)).or (rows.find? (fun p => p.1 == k)))
  | [], acc => by
    show acc.find? (fun p => p.1 == k) =
      (acc.find? (fun p => p.1 == k)).or ([].find? (fun p => p.1 == k))
    cases acc.find? (fun p => p.1 == k) <;> rfl
  | (k0, v) :: rest, acc => by
    have ih := specIndex_find k rest (indexAccAdd acc k0 v)
    show (specIndex rest (indexAccAdd acc k0 v)).find? _ = _
    rw [ih, indexAccAdd_find]
    by_cases hk : (k0 == k) = true
    · rw [if_pos hk]
      have hcons : ((k0, v) :: rest).find? (fun p => p.1 == k) = some (k0, v) := by
        simp [List.find?, hk]
      rw [hcons]
      cases acc.find? (fun p => p.1 == k) <;> rfl
    · rw [if_neg hk]
      have hcons : ((k0, v) :: rest).find? (fun p => p.1 == k) =
          rest.find? (fun p => p.1 == k) := by
        simp [List.find?, hk]
      rw [hcons]
      cases acc.find? (fun p => p.1 == k) <;> rfl

theorem specIndex_append : ∀ (a b : List (String × Item)) (acc : List (String × Item)),
    specIndex (a ++ b) acc = specIndex b (specIndex a acc)
  | [], b, acc => rfl
  | (k, v) :: rest, b, acc => by
    simp only [List.cons_append, specIndex]
    exact specIndex_append rest b _

mutual

theorem index_spec_I : ∀ (it : Item) (acc : List (String × Item)),
    indexItemsI it acc = specIndex (entriesI it) acc
  | .mk n r ev resp ch ex, acc => by
    cases r with
    | none =>
      simp only [indexItemsI, entriesI, List.nil_append]
      exact index_spec_C ch acc
    | some req =>
      simp only [indexItemsI, entriesI, List.singleton_append, specIndex]
      exact index_spec_C ch _

theorem index_spec_C : ∀ (ch : Children) (acc : List (String × Item)),
    indexItemsC ch acc = specIndex (entriesC ch) acc
  | .noKey, acc => rfl
  | .withKey l, acc => by
    simp only [indexItemsC, entriesC]
    exact index_spec_L l acc

theorem index_spec_L : ∀ (l : ItemList) (acc : List (String × Item)),
    indexItemsL l acc = specIndex (entriesL l) acc
  | .nil, acc => rfl
  | .cons it rest, acc => by
    simp only [indexItemsL, entriesL]
    rw [index_spec_L rest (indexItemsI it acc), index_spec_I it acc]
    rw [← specIndex_append]

end

theorem index_requests_eq_spec (l : ItemList) :
    index_requests l = specIndex (entriesL l) [] :=
  index_spec_L l []

theorem index_find_eq_entries_find (l : ItemList) (k : String) :
    (index_requests l).find? (fun p => p.1 == k) =
      (entriesL l).find? (fun p => p.1 == k) := by
  show (indexItemsL l []).find? _ = _
  rw [index_spec_L l [], specIndex_find]
  rfl

/-! ## Entry bookkeeping of the insertion step -/

theorem entriesL_push : ∀ (l : ItemList) (x : Item),
    entriesL (l.push x) = entriesL l ++ entriesI x
  | .nil, x => by
    simp [ItemList.push, entriesL]
  | .cons it rest, x => by
    simp only [ItemList.push, entriesL, entriesL_push rest x, List.append_assoc]

theorem append_to_folder_spec (fname : String) (x : Item) :
    ∀ (l l2 : ItemList), append_to_folder l fname x = some l2 →
      (∀ Q : String → Bool,
        (entriesL l2).countP (fun p => Q p.1) =
          (entriesL l).countP (fun p => Q p.1) + (entriesI x).countP (fun p => Q p.1)) ∧
      (∀ n, topHasFolder l2 n = topHasFolder l n)
  | .nil, l2 => by intro h; cases h
  | .cons it rest, l2 => by
    intro h
    rcases it with ⟨ni, ri, evi, respi, chi, exi⟩
    cases chi with
    | noKey =>
      simp only [append_to_folder, Item.name, Item.children, Bool.and_false] at h
      rw [if_neg (by decide)] at h
      cases hr : append_to_folder rest fname x with
      | none => rw [hr] at h; cases h
      | some rest2 =>
        rw [hr] at h
        injection h with h
        subst h
        obtain ⟨ihc, iht⟩ := append_to_folder_spec fname x rest rest2 hr
        constructor
        · intro Q
          simp only [entriesL, List.countP_append, ihc Q]
          omega
        · intro n
          simp only [topHasFolder, Item.name, Item.children, iht n]
    | withKey sub =>
      by_cases hname : (ni == some fname) = true
      · simp only [append_to_folder, Item.name, Item.children, Bool.and_true] at h
        rw [if_pos hname] at h
        injection h with h
        subst h
        constructor
        · intro Q
          cases ri with
          | none =>
            simp only [entriesL, Item.pushChild, entriesI, entriesC, entriesL_push,
              List.countP_append, List.nil_append]
            omega
          | some req =>
            simp only [entriesL, Item.pushChild, entriesI, entriesC, entriesL_push,
              List.countP_append, List.singleton_append, List.countP_cons]
            omega
        · intro n
          simp only [topHasFolder, Item.pushChild, Item.name, Item.children]
      · simp only [append_to_folder, Item.name, Item.children, Bool.and_true] at h
        rw [if_neg hname] at h
        cases hr : append_to_folder rest fname x with
        | none => rw [hr] at h; cases h
        | some rest2 =>
          rw [hr] at h
          injection h with h
          subst h
          obtain ⟨ihc, iht⟩ := append_to_folder_spec fname x rest rest2 hr
          constructor
          · intro Q
            simp only [entriesL, List.countP_append, ihc Q]
            omega
          · intro n
            simp only [topHasFolder, Item.name, Item.children, iht n]

theorem entriesI_entry {it : Item} {k : String} (hk : itemUid it = some k)
    (hch : it.children = .noKey) :
    entriesI it = [(k, it)] := by
  obtain ⟨req, hreq, huid⟩ := itemUid_some_elim hk
  cases it with
  | mk n r0 ev resp ch ex =>
    simp only [Item.request] at hreq
    simp only [Item.children] at hch
    subst hreq
    subst hch
    simp only [entriesI, entriesC, List.append_nil]
    rw [huid]

theorem build_children_noKey (r : Route) (now : Nat) :
    (build_request_item r now).children = .noKey := by
  unfold build_request_item
  simp only
  split
  · rw [ensure_auth_children]
    rfl
  · rfl

theorem entriesI_build (r : Route) (now : Nat) (h : normalizedPath r.full_path = true) :
    entriesI (build_request_item r now) = [(r.unique_id, build_request_item r now)] :=
  entriesI_entry (build_request_item_uid r now h) (build_children_noKey r now)

theorem add_request_countKey (items : ItemList) (r : Route) (now : Nat) (k : String)
    (h : normalizedPath r.full_path = true) :
    countKey k (add_request items r now) =
      countKey k items + (if r.unique_id == k then 1 else 0) := by
  unfold add_request countKey
  simp only
  cases happ : append_to_folder items r.folder_name (build_request_item r now) with
  | some l2 =>
    rw [(append_to_folder_spec r.folder_name (build_request_item r now) items l2 happ).1
      (fun s => s == k)]
    rw [entriesI_build r now h]
    simp [List.countP_cons]
  | none =>
    rw [entriesL_push]
    simp only [entriesI, entriesC, entriesL, List.nil_append, List.append_nil,
      List.countP_append]
    rw [entriesI_build r now h]
    simp [List.countP_cons]

theorem foldl_add_request_countKey (now : Nat) (k : String) :
    ∀ (rs : List Route) (items : ItemList),
      (∀ r ∈ rs, normalizedPath r.full_path = true) →
      countKey k (rs.foldl (fun acc r => add_request acc r now) items) =
        countKey k items + rs.countP (fun r => r.unique_id == k)
  | [], items => by
    intro _
    simp
  | r :: rest, items => by
    intro h
    rw [List.foldl_cons]
    rw [foldl_add_request_countKey now k rest (add_request items r now)
      (fun r2 h2 => h r2 (List.mem_cons_of_mem r h2))]
    rw [add_request_countKey items r now k (h r (List.mem_cons_self r rest))]
    rw [List.countP_cons]
    omega

/-! ## Top-level folder creation -/

theorem topHasFolder_push : ∀ (l : ItemList) (x : Item) (n : String),
    topHasFolder (l.push x) n =
      (topHasFolder l n || (x.name == some n &&
        (match x.children with | .withKey _ => true | .noKey => false)))
  | .nil, x, n => by
    simp [ItemList.push, topHasFolder]
  | .cons it rest, x, n => by
    simp only [ItemList.push, topHasFolder, topHasFolder_push rest x n, Bool.or_assoc]

theorem add_request_topHasFolder (items : ItemList) (r : Route) (now : Nat) (n : String)
    (h : topHasFolder (add_request items r now) n = true) :
    topHasFolder items n = true ∨ n = r.folder_name := by
  unfold add_request at h
  simp only at h
  cases happ : append_to_folder items r.folder_name (build_request_item r now) with
  | some l2 =>
    rw [happ] at h
    simp only at h
    left
    rw [← (append_to_folder_spec r.folder_name (build_request_item r now) items l2 happ).2 n]
    exact h
  | none =>
    rw [happ] at h
    simp only at h
    rw [topHasFolder_push] at h
    rcases (Bool.or_eq_true _ _).mp h with h1 | h2
    · exact Or.inl h1
    · right
      simp only [Item.name, Item.children, Bool.and_true] at h2
      have : some r.folder_name = some n := by simpa using h2
      injection this with this
      exact this.symm

/-! ## What the update step does to the `event` list -/

theorem ensure_auth_event (it : Item) :
    ∃ tl, (ensure_auth_prerequest it).event = some (it.event.getD [] ++ tl) ∧
      (tl = [] ∨ tl = [authPrerequestEvent]) := by
  cases it with
  | mk n r ev resp ch ex =>
    simp only [ensure_auth_prerequest]
    split
    · exact ⟨[], by simp [Item.event], Or.inl rfl⟩
    · exact ⟨[authPrerequestEvent], by simp [Item.event], Or.inr rfl⟩

theorem update_request_event_unprotected (it : Item) (r : Route) (now : Nat)
    (hp : route_is_protected r = false) :
    (update_request it r now).event = it.event := by
  cases it with
  | mk n r0 ev resp ch ex =>
    simp only [update_request]
    rw [if_neg (by simp [hp])]
    cases r0 <;> rfl

theorem ensure_auth_event_eq (it1 it2 : Item) (h : it1.event = it2.event) :
    ∃ tl, (ensure_auth_prerequest it1).event = some (it2.event.getD [] ++ tl) ∧
      (tl = [] ∨ tl = [authPrerequestEvent]) := by
  obtain ⟨tl, h1, h2⟩ := ensure_auth_event it1
  rw [h] at h1
  exact ⟨tl, h1, h2⟩

theorem update_request_event_protected (it : Item) (r : Route) (now : Nat)
    (hp : route_is_protected r = true) :
    ∃ tl, (update_request it r now).event = some (it.event.getD [] ++ tl) ∧
      (tl = [] ∨ tl = [authPrerequestEvent]) := by
  cases it with
  | mk n r0 ev resp ch ex =>
    simp only [update_request]
    rw [if_pos (by simp [hp])]
    cases r0 with
    | none => exact ensure_auth_event _
    | some req =>
      apply ensure_auth_event_eq
      rfl


/-! ## Claims -/

/-- Claim C1 (corrected).  A second merge with the same routes is not a
no-op as reported: on every successful merge, `routes_updated` lists
exactly the routes whose unique id is already indexed in the input
document, and `has_changes` is `false` only when all four change lists
are empty — so the second run, whose routes are by then all indexed,
reports `has_changes = true` whenever the route list is non-empty,
even though (as the counterexample shows concretely) the document
itself is unchanged. -/
theorem C1_second_run_reports_updates (d now : Nat) (c : Collection)
    (routes : List Route) (c2 : Collection) (res : SyncResult)
    (h : merge d now c routes = .ok (c2, res)) :
    res.routes_updated = routes.filter
      (fun r => ((index_requests (collItems c)).find?
        (fun p => p.1 == r.unique_id)).isSome) ∧
    (res.has_changes = false ↔ res.routes_added = [] ∧ res.routes_updated = [] ∧
      res.routes_deprecated = [] ∧ res.routes_removed = []) := by
  constructor
  · cases hv : validate_postman_collection c with
    | error e =>
      unfold merge at h
      simp only [hv] at h
      exact Except.noConfusion h
    | ok u =>
      unfold merge at h
      simp only [hv] at h
      split at h
      · simp at h
      · rw [Except.ok.injEq, Prod.mk.injEq] at h
        obtain ⟨h1, h2⟩ := h
        rw [← h2]
        rfl
  · simp only [SyncResult.has_changes, Bool.or_eq_false_iff, decide_eq_false_iff_not,
      Nat.not_lt, Nat.le_zero, List.length_eq_zero]
    tauto

/-- Witness for C1: the first merge of the concrete scenario satisfies
the conclusion. -/
theorem C1_second_run_reports_updates_witness :
    (mergedResult c1FirstMerge).routes_updated = [authRoute].filter
      (fun r => ((index_requests (collItems emptyDoc)).find?
        (fun p => p.1 == r.unique_id)).isSome) ∧
    ((mergedResult c1FirstMerge).has_changes = false ↔
      (mergedResult c1FirstMerge).routes_added = [] ∧
      (mergedResult c1FirstMerge).routes_updated = [] ∧
      (mergedResult c1FirstMerge).routes_deprecated = [] ∧
      (mergedResult c1FirstMerge).routes_removed = []) :=
  C1_second_run_reports_updates 30 100 emptyDoc [authRoute]
    (mergedColl c1FirstMerge) (mergedResult c1FirstMerge) rfl

/-- Counterexample to C1 as stated: merging twice at the same instant
leaves the document unchanged, yet the second result reports
`has_changes = true` (its `routes_updated` is the whole route list),
refuting `hasChanges == false`. -/
theorem C1_counterexample_second_merge :
    mergedColl c1SecondMerge = mergedColl c1FirstMerge ∧
    (mergedResult c1SecondMerge).has_changes = true ∧
    (mergedResult c1SecondMerge).routes_updated = [authRoute] :=
  ⟨by decide, by decide, by decide⟩

/-- Claim C2 (corrected).  Duplicate identities among new routes are
not collapsed: the insertion loop adds one entry per occurrence, so a
unique id occurring twice in the route list and absent from the
document ends up with two entries, not at most one.  The amended
statement: after the insertion fold, the number of entry occurrences
carrying key `k` is the initial number plus the number of route-list
occurrences whose `unique_id` is `k`. -/
theorem C2_each_new_route_occurrence_inserts (items : ItemList) (rs : List Route)
    (now : Nat) (k : String)
    (h : ∀ r ∈ rs, normalizedPath r.full_path = true) :
    countKey k (rs.foldl (fun acc r => add_request acc r now) items) =
      countKey k items + rs.countP (fun r => r.unique_id == k) :=
  foldl_add_request_countKey now k rs items h

/-- Witness for C2: the duplicate-route fold on the empty list. -/
theorem C2_each_new_route_occurrence_inserts_witness :
    countKey authRoute.unique_id
        ([authRoute, authRoute].foldl (fun acc r => add_request acc r 100) .nil) =
      countKey authRoute.unique_id .nil +
        [authRoute, authRoute].countP (fun r => r.unique_id == authRoute.unique_id) :=
  C2_each_new_route_occurrence_inserts .nil [authRoute, authRoute] 100
    authRoute.unique_id (by decide)

/-- Counterexample to C2 as stated: a duplicated fresh route yields a
collection with two entries for its unique id (and both occurrences in
`routes_added`), not at most one entry. -/
theorem C2_counterexample_duplicates_create_two_entries :
    countKey authRoute.unique_id
        (collItems (mergedColl (merge 30 100 emptyDoc [authRoute, authRoute]))) = 2 ∧
    (mergedResult (merge 30 100 emptyDoc [authRoute, authRoute])).routes_added.length
      = 2 :=
  ⟨by decide, by decide⟩

/-- Claim C3 (code bug).  The insertion scenario produces one Group
named `Auth` holding one Entry, the test hook carries the
token-presence assertion and the variable-save step, and one route is
reported added — but the Entry is named `Generate Auth Token`, not
`Generate Token` as the specification (and the docstring of
`Route.request_name`) promise. -/
theorem C3_insertion_scenario_code_result :
    (mergedResult c1FirstMerge).routes_added.length = 1 ∧
    collItems (mergedColl c1FirstMerge) =
      .cons (.mk (some "Auth") none none none
        (.withKey (.cons (build_request_item authRoute 100) .nil)) 0) .nil ∧
    (build_request_item authRoute 100).name = some "Generate Auth Token" ∧
    authRoute.request_name = "Generate Auth Token" ∧
    (build_request_item authRoute 100).event =
      some [⟨some "test", some ⟨generate_test_script authRoute, "text/javascript"⟩⟩] ∧
    "    pm.expect(jsonData).to.have.property(\"token\");"
      ∈ generate_test_script authRoute ∧
    "    pm.collectionVariables.set(\"jwtToken\", jsonData.token);"
      ∈ generate_test_script authRoute :=
  ⟨by decide, by decide, by decide, by decide, by decide, by decide, by decide⟩

/-- Claim C4 (confirmed).  Re-marking is monotone: an entry whose
description already carries the deprecation marker, and whose id is
absent from the route set, passes through the per-entry effect of the
merge loop unchanged — in particular the recorded timestamp is not
reset. -/
theorem C4_remark_never_restamps (routes : List Route) (now : Nat) (uid : String)
    (it : Item)
    (hm : containsSub (item_desc it) "**DEPRECATED**" = true)
    (hr : (routes.map Route.unique_id).contains uid = false) :
    route_effect routes now uid it = it ∧
    findDepDate (item_desc (route_effect routes now uid it)) =
      findDepDate (item_desc it) := by
  have h1 : route_effect routes now uid it = it := by
    unfold route_effect
    rw [if_neg (by rw [hr]; simp)]
    exact mark_id_of_marked now hm
  exact ⟨h1, by rw [h1]⟩

/-- Witness for C4: the marked `DELETE /api/users/1` entry is left
identically unchanged, both by the per-entry effect and by a whole
merge run inside the retention window. -/
theorem C4_remark_never_restamps_witness :
    (route_effect [authRoute] 34 "DELETE:/api/users/1" markedEntryItem =
        markedEntryItem ∧
      findDepDate (item_desc (route_effect [authRoute] 34 "DELETE:/api/users/1"
          markedEntryItem)) =
        findDepDate (item_desc markedEntryItem)) ∧
    (entriesL (collItems (mergedColl (merge 30 34 markedDoc [authRoute])))).find?
        (fun p => p.1 == "DELETE:/api/users/1") =
      some ("DELETE:/api/users/1", markedEntryItem) :=
  ⟨C4_remark_never_restamps [authRoute] 34 "DELETE:/api/users/1" markedEntryItem
      (by decide) (by decide),
    by decide⟩

/-- Claim C5 (confirmed).  Expiry boundary: an entry stamped at
instant `T` is kept by the removal pass run at `T + d - 1` (its view
untouched), and at `T + d + 1` it is dropped from its parent sequence
with its unique id recorded. -/
theorem C5_expiry_boundary (T d : Nat) (it : Item) (k s : String)
    (l1 rest : ItemList)
    (hk : itemUid it = some k)
    (hm : containsSub (item_desc it) "**DEPRECATED**" = true)
    (hfs : findDepDate (item_desc it) = some s)
    (hps : parseTimestamp s = some T) :
    ((remove_old_deprecated d (T + d - 1) (l1.append (.cons it rest))).1 =
        (removeL (T - 1) l1).1.append
          (.cons (removeI (T - 1) it).1 (removeL (T - 1) rest).1) ∧
      viewOf (removeI (T - 1) it).1 = viewOf it) ∧
    ((remove_old_deprecated d (T + d + 1) (l1.append (.cons it rest))).1 =
        (removeL (T + 1) l1).1.append (removeL (T + 1) rest).1 ∧
      (remove_old_deprecated d (T + d + 1) (l1.append (.cons it rest))).2 =
        (removeL (T + 1) l1).2 ++ (k :: (removeL (T + 1) rest).2)) := by
  have hcut1 : T + d - 1 - d = T - 1 := by omega
  have hcut2 : T + d + 1 - d = T + 1 := by omega
  have hkeep : remove_check (T - 1) it = none := by
    rw [remove_check_entry (T - 1) hk hm hfs hps]
    rw [if_neg (by omega)]
  have hdrop : remove_check (T + 1) it = some k := by
    rw [remove_check_entry (T + 1) hk hm hfs hps]
    rw [if_pos (by omega)]
  refine ⟨⟨?_, removeI_view _ it⟩, ?_, ?_⟩
  · show (removeL (T + d - 1 - d) (l1.append (.cons it rest))).1 = _
    rw [hcut1, (removeL_append (T - 1) l1 (.cons it rest)).1]
    congr 1
    simp only [removeL, hkeep]
  · show (removeL (T + d + 1 - d) (l1.append (.cons it rest))).1 = _
    rw [hcut2, (removeL_append (T + 1) l1 (.cons it rest)).1]
    congr 1
    simp only [removeL, hdrop]
  · show (removeL (T + d + 1 - d) (l1.append (.cons it rest))).2 = _
    rw [hcut2, (removeL_append (T + 1) l1 (.cons it rest)).2]
    congr 1
    simp only [removeL, hdrop]

/-- Witness for C5: the entry stamped at 5 with a 30-day window is
kept by the pass at instant 34 and dropped, with its id recorded, at
instant 36; the corresponding whole-merge runs agree. -/
theorem C5_expiry_boundary_witness :
    (((remove_old_deprecated 30 34 (ItemList.nil.append
          (.cons markedEntryItem .nil))).1 =
        (removeL 4 ItemList.nil).1.append
          (.cons (removeI 4 markedEntryItem).1 (removeL 4 ItemList.nil).1) ∧
      viewOf (removeI 4 markedEntryItem).1 = viewOf markedEntryItem) ∧
     ((remove_old_deprecated 30 36 (ItemList.nil.append
          (.cons markedEntryItem .nil))).1 =
        (removeL 6 ItemList.nil).1.append (removeL 6 ItemList.nil).1 ∧
      (remove_old_deprecated 30 36 (ItemList.nil.append
          (.cons markedEntryItem .nil))).2 =
        (removeL 6 ItemList.nil).2 ++
          ("DELETE:/api/users/1" :: (removeL 6 ItemList.nil).2))) ∧
    mergedColl (merge 30 34 markedDoc []) = markedDoc ∧
    mergedColl (merge 30 36 markedDoc []) = ⟨some ⟨some "API", 0⟩, some .nil, 0⟩ ∧
    (mergedResult (merge 30 36 markedDoc [])).routes_removed =
      ["DELETE:/api/users/1"] :=
  ⟨C5_expiry_boundary 5 30 markedEntryItem "DELETE:/api/users/1" "5" .nil .nil
      (by decide) (by decide) (by decide) (by decide),
    by decide, by decide, by decide⟩

/-- Claim C6 (confirmed).  A document missing `info`, missing `item`,
or whose `info` has no `name` makes the validator fail, and `merge`
returns the failure with the input document attached completely
unmodified — nothing has mutated before the raise. -/
theorem C6_malformed_rejected_before_mutation (d now : Nat) (c : Collection)
    (routes : List Route)
    (h : c.info = none ∨ c.item = none ∨ ∃ i, c.info = some i ∧ i.name = none) :
    ∃ e, validate_postman_collection c = .error e ∧
      merge d now c routes = .error ("Failed to merge collection: " ++ e, c) ∧
      mergedColl (merge d now c routes) = c := by
  have hval : ∃ e, validate_postman_collection c = .error e := by
    rcases h with h1 | h2 | ⟨i, hi, hn⟩
    · exact ⟨"Collection missing \x27info\x27 field",
        by simp only [validate_postman_collection, h1]⟩
    · cases hinfo : c.info with
      | none => exact ⟨"Collection missing \x27info\x27 field",
          by simp only [validate_postman_collection, hinfo]⟩
      | some i => exact ⟨"Collection missing \x27item\x27 field",
          by simp only [validate_postman_collection, hinfo, h2]⟩
    · cases hitem : c.item with
      | none => exact ⟨"Collection missing \x27item\x27 field",
          by simp only [validate_postman_collection, hi, hitem]⟩
      | some l => exact ⟨"Collection info missing \x27name\x27 field",
          by simp only [validate_postman_collection, hi, hitem, hn]⟩
  obtain ⟨e, he⟩ := hval
  have hm : merge d now c routes =
      .error ("Failed to merge collection: " ++ e, c) := by
    unfold merge
    simp only [he]
  exact ⟨e, he, hm, by rw [hm]; rfl⟩

/-- Witness for C6: the document without an `info` key. -/
theorem C6_malformed_rejected_before_mutation_witness :
    ∃ e, validate_postman_collection noInfoDoc = .error e ∧
      merge 30 100 noInfoDoc [] = .error ("Failed to merge collection: " ++ e,
        noInfoDoc) ∧
      mergedColl (merge 30 100 noInfoDoc []) = noInfoDoc :=
  C6_malformed_rejected_before_mutation 30 100 noInfoDoc [] (Or.inl rfl)

/-- Claim C7 (confirmed).  Fail-open on bad timestamps: an entry whose
deprecation marker has no parseable timestamp is never selected for
removal; the removal pass keeps it (view untouched) and records
nothing for it, and — as the witness shows on a whole run — the merge
still succeeds. -/
theorem C7_unparsable_timestamp_entry_kept (d now : Nat) (it : Item)
    (l1 rest : ItemList)
    (hbad : (findDepDate (item_desc it)).bind parseTimestamp = none) :
    remove_check (now - d) it = none ∧
    (remove_old_deprecated d now (l1.append (.cons it rest))).1 =
      (removeL (now - d) l1).1.append
        (.cons (removeI (now - d) it).1 (removeL (now - d) rest).1) ∧
    viewOf (removeI (now - d) it).1 = viewOf it ∧
    (remove_old_deprecated d now (l1.append (.cons it rest))).2 =
      (removeL (now - d) l1).2 ++
        ((removeI (now - d) it).2 ++ (removeL (now - d) rest).2) := by
  have hnone := remove_check_none_of_bad (now - d) it hbad
  refine ⟨hnone, ?_, removeI_view _ it, ?_⟩
  · show (removeL (now - d) (l1.append (.cons it rest))).1 = _
    rw [(removeL_append (now - d) l1 (.cons it rest)).1]
    congr 1
    simp only [removeL, hnone]
  · show (removeL (now - d) (l1.append (.cons it rest))).2 = _
    rw [(removeL_append (now - d) l1 (.cons it rest)).2]
    congr 1
    simp only [removeL, hnone]

/-- Witness for C7: the `(as of unknown)` entry at instant 100, and
the whole-merge run succeeding with the document untouched. -/
theorem C7_unparsable_timestamp_entry_kept_witness :
    (remove_check (100 - 30) badStampItem = none ∧
      (remove_old_deprecated 30 100 (ItemList.nil.append
          (.cons badStampItem .nil))).1 =
        (removeL (100 - 30) ItemList.nil).1.append
          (.cons (removeI (100 - 30) badStampItem).1
            (removeL (100 - 30) ItemList.nil).1) ∧
      viewOf (removeI (100 - 30) badStampItem).1 = viewOf badStampItem ∧
      (remove_old_deprecated 30 100 (ItemList.nil.append
          (.cons badStampItem .nil))).2 =
        (removeL (100 - 30) ItemList.nil).2 ++
          ((removeI (100 - 30) badStampItem).2 ++
            (removeL (100 - 30) ItemList.nil).2)) ∧
    mergedColl (merge 30 100 badStampDoc []) = badStampDoc ∧
    mergedResult (merge 30 100 badStampDoc []) = ⟨[], [], [], [], []⟩ :=
  ⟨C7_unparsable_timestamp_entry_kept 30 100 badStampItem .nil .nil (by decide),
    by decide, by decide⟩

/-- Claim C8 (confirmed).  The indexer is the first-binding-wins fold
over the depth-first entry sequence: looking a key up in the index is
looking it up in the entry sequence (first occurrence kept, later
duplicates ignored); an entry keys as its method joined by `:` to the
path extracted from its url, and a structured url with path segments
extracts to `/` plus the segments joined by `/`.  The embedding of
`_index_requests` is a pure function of the document, reflecting that
indexing performs no mutation. -/
theorem C8_indexer_first_occurrence_wins (l : ItemList) (k : String) (req : Request)
    (raw : Option String) (host : Option (List String)) (segs : List String) :
    index_requests l = specIndex (entriesL l) [] ∧
    (index_requests l).find? (fun p => p.1 == k) =
      (entriesL l).find? (fun p => p.1 == k) ∧
    uidOfRequest req = req.method ++ ":" ++ extract_path req.url ∧
    extract_path (some (.obj raw host (some (.segs segs)))) = "/" ++ joinSlash segs :=
  ⟨index_requests_eq_spec l, index_find_eq_entries_find l k, rfl,
    extract_path_obj_segs raw host segs⟩

/-- Claim C9 (confirmed).  Frame property of the update pass: the
update step never touches an entry\x27s name, response list or
subtree, keeps the event list unchanged for unprotected routes and at
most appends the auth prerequest hook for protected ones; the fused
update/deprecation traversal rewrites each first occurrence in place
(the id sequence, hence every entry\x27s position, is unchanged); and
the insertion step creates a new top-level Group only when the new
entry\x27s folder is absent. -/
theorem C9_update_frame (r : Route) (now : Nat) (it : Item) (routes : List Route)
    (l items : ItemList) (n : String)
    (hnorm : ∀ r2 ∈ routes, normalizedPath r2.full_path = true) :
    (update_request it r now).name = it.name ∧
    (update_request it r now).response = it.response ∧
    (update_request it r now).children = it.children ∧
    (route_is_protected r = false → (update_request it r now).event = it.event) ∧
    (route_is_protected r = true → ∃ tl, (update_request it r now).event =
        some (it.event.getD [] ++ tl) ∧ (tl = [] ∨ tl = [authPrerequestEvent])) ∧
    entryViews (transformL (route_effect routes now) l []).1 =
      (tviews (route_effect routes now) (entryViews l) []).1 ∧
    (entryViews (transformL (route_effect routes now) l []).1).map Prod.fst =
      (entryViews l).map Prod.fst ∧
    (topHasFolder (add_request items r now) n = true →
      topHasFolder items n = true ∨ n = r.folder_name) := by
  have hU : ∀ k2 it2, itemUid it2 = some k2 →
      itemUid (route_effect routes now k2 it2) = some k2 :=
    fun k2 it2 hk2 => route_effect_uid routes now k2 it2 hnorm hk2
  have hV : ∀ k2 it2, viewOf (route_effect routes now k2 it2) =
      route_effect routes now k2 (viewOf it2) :=
    fun k2 it2 => viewOf_route_effect routes now k2 it2
  have htv := transform_views_L (route_effect routes now) hU hV l []
  refine ⟨update_request_name it r now, update_request_response it r now,
    update_request_children it r now,
    fun hp => update_request_event_unprotected it r now hp,
    fun hp => update_request_event_protected it r now hp,
    htv.1, ?_, fun hh => add_request_topHasFolder items r now n hh⟩
  show ((entriesL (transformL (route_effect routes now) l []).1).map pairView).map
      Prod.fst = _
  rw [htv.1, tviews_keys]
  rfl

/-- Witness for C9 at the concrete marked document and auth route. -/
theorem C9_update_frame_witness :
    (update_request markedEntryItem authRoute 100).name = markedEntryItem.name ∧
    (update_request markedEntryItem authRoute 100).response =
      markedEntryItem.response ∧
    (update_request markedEntryItem authRoute 100).children =
      markedEntryItem.children ∧
    (route_is_protected authRoute = false →
      (update_request markedEntryItem authRoute 100).event =
        markedEntryItem.event) ∧
    (route_is_protected authRoute = true → ∃ tl,
      (update_request markedEntryItem authRoute 100).event =
        some (markedEntryItem.event.getD [] ++ tl) ∧
      (tl = [] ∨ tl = [authPrerequestEvent])) ∧
    entryViews (transformL (route_effect [authRoute] 100)
        (.cons markedEntryItem .nil) []).1 =
      (tviews (route_effect [authRoute] 100)
        (entryViews (.cons markedEntryItem .nil)) []).1 ∧
    (entryViews (transformL (route_effect [authRoute] 100)
        (.cons markedEntryItem .nil) []).1).map Prod.fst =
      (entryViews (.cons markedEntryItem .nil)).map Prod.fst ∧
    (topHasFolder (add_request .nil authRoute 100) "Auth" = true →
      topHasFolder ItemList.nil "Auth" = true ∨ "Auth" = authRoute.folder_name) :=
  C9_update_frame authRoute 100 markedEntryItem [authRoute]
    (.cons markedEntryItem .nil) .nil "Auth" (by decide)

/-- Claim C10 (confirmed).  Building a url for a normalised path and
extracting the path back is the identity, so a freshly inserted entry
keys under exactly its route\x27s unique id: its depth-first entry is
that single binding and the index of a document holding it finds it
under `unique_id`. -/
theorem C10_build_extract_roundtrip (p : String) (r : Route) (now : Nat)
    (hp : normalizedPath p = true) (hr : normalizedPath r.full_path = true) :
    extract_path (some (build_url p)) = p ∧
    itemUid (build_request_item r now) = some r.unique_id ∧
    entriesI (build_request_item r now) = [(r.unique_id, build_request_item r now)] ∧
    (index_requests (.cons (build_request_item r now) .nil)).find?
      (fun q => q.1 == r.unique_id) =
      some (r.unique_id, build_request_item r now) := by
  refine ⟨extract_build_roundtrip hp, build_request_item_uid r now hr,
    entriesI_build r now hr, ?_⟩
  rw [index_find_eq_entries_find]
  simp only [entriesL, List.append_nil, entriesI_build r now hr]
  simp [List.find?]

/-- Witness for C10 at the auth route and its path. -/
theorem C10_build_extract_roundtrip_witness :
    extract_path (some (build_url "/api/auth/token")) = "/api/auth/token" ∧
    itemUid (build_request_item authRoute 100) = some authRoute.unique_id ∧
    entriesI (build_request_item authRoute 100) =
      [(authRoute.unique_id, build_request_item authRoute 100)] ∧
    (index_requests (.cons (build_request_item authRoute 100) .nil)).find?
      (fun q => q.1 == authRoute.unique_id) =
      some (authRoute.unique_id, build_request_item authRoute 100) :=
  C10_build_extract_roundtrip "/api/auth/token" authRoute 100 (by decide) (by decide)

end PostmanSync
